import Mathlib

/-!
# ec2-drift-detector: the drift detection engine

A shallow embedding of `pkg/detector` (the resolver, the structural equality
checker, the attribute comparator and the engine), of the counting loops of
`pkg/reporter` and of the state parser of `pkg/terraform/state.go`, with
their properties.

Go's dynamically typed `any` is embedded as the closed inductive type `Value`,
one constructor per dynamic type that the providers can put into an attribute
bag.  A `map[string]any` is an association list; Go maps have unique keys,
which is the predicate `Value.uniqueKeys`.  Strings are Lean strings (valid
Unicode text).
-/

set_option linter.dupNamespace false

namespace Detector

/-- Dynamic values held in an `any`: the nil interface, the scalars, the two
slice types and `map[string]any`.  A `float64` is its IEEE-754 bit pattern.
A nil slice or nil map stored in an interface is represented by the empty
list: every operation below only takes its length, ranges over it or looks a
key up in it, which cannot tell the two apart. -/
inductive Value where
  | null : Value
  | str : String → Value
  | int : Int → Value
  | int64 : Int → Value
  | float64 : Nat → Value
  | bool : Bool → Value
  | slice : List Value → Value
  | strSlice : List String → Value
  | map : List (String × Value) → Value

/-- Attribute bag, `map[string]any`, as the list of its entries. -/
abbrev Bag := List (String × Value)

/-- Whether a `float64` bit pattern is a NaN: exponent all ones, fraction
non-zero. -/
def isNaN (bits : Nat) : Bool :=
  (bits / 2 ^ 52) % 2 ^ 11 == 2 ^ 11 - 1 && bits % 2 ^ 52 != 0

/-- Equality `==` of Go on `float64`, on bit patterns: a NaN equals nothing, the two
zeros equal each other, any other two floats are equal iff their bits are. -/
def floatEq (a b : Nat) : Bool :=
  if isNaN a || isNaN b then false
  else if a % 2 ^ 63 == 0 && b % 2 ^ 63 == 0 then true
  else a % 2 ^ 64 == b % 2 ^ 64

namespace Value

instance : Inhabited Value := ⟨Value.null⟩

mutual
/-- Every map inside the value, at any depth, has pairwise distinct keys: the
invariant of Go maps. -/
def uniqueKeys : Value → Bool
  | .slice xs => uniqueKeysList xs
  | .map kvs => decide (kvs.map Prod.fst).Nodup && uniqueKeysEntries kvs
  | _ => true
/-- All elements of a slice satisfy `uniqueKeys`. -/
def uniqueKeysList : List Value → Bool
  | [] => true
  | x :: xs => uniqueKeys x && uniqueKeysList xs
/-- All values of a map satisfy `uniqueKeys`. -/
def uniqueKeysEntries : List (String × Value) → Bool
  | [] => true
  | (_, x) :: xs => uniqueKeys x && uniqueKeysEntries xs
end

mutual
/-- No `float64` inside the value, at any depth, is a NaN. -/
def noNaN : Value → Bool
  | .float64 f => !isNaN f
  | .slice xs => noNaNList xs
  | .map kvs => noNaNEntries kvs
  | _ => true
/-- All elements of a slice satisfy `noNaN`. -/
def noNaNList : List Value → Bool
  | [] => true
  | x :: xs => noNaN x && noNaNList xs
/-- All values of a map satisfy `noNaN`. -/
def noNaNEntries : List (String × Value) → Bool
  | [] => true
  | (_, x) :: xs => noNaN x && noNaNEntries xs
end

end Value

/-- Function `reflect.DeepEqual(a, b)` on the argument pairs that reach it from
`valuesEqual`: both non-nil and not both `[]any`, both `[]string` or both
`map[string]any`.  Values of different dynamic types are never deeply equal;
scalars of one type are compared with `==`. -/
def deepEqual : Value → Value → Bool
  | .str a, .str b => a == b
  | .int a, .int b => a == b
  | .int64 a, .int64 b => a == b
  | .float64 a, .float64 b => floatEq a b
  | .bool a, .bool b => a == b
  | _, _ => false

/-- The `for i := range a` of `stringSlicesEqual`, on the remaining elements
of both slices.  The second case (no `b[i]`) is excluded by the length test. -/
def stringSlicesLoop : List String → List String → Bool
  | [], _ => true
  | _ :: _, [] => false
  | x :: xs, y :: ys => if x != y then false else stringSlicesLoop xs ys

/-- Function `stringSlicesEqual` of compare.go: the length test, then the loop
over the indices of `a`. -/
def stringSlicesEqual (a b : List String) : Bool :=
  if a.length != b.length then false else stringSlicesLoop a b

mutual
/-- Function `valuesEqual` of compare.go.  The calls `slicesEqual(aSlice, bSlice)` and
`mapsEqual(aMap, bMap)` are written out as their bodies (length test, then
loop), so that the recursion is structural; `slicesEqual` and `mapsEqual`
below are these bodies by name. -/
def valuesEqual : Value → Value → Bool
  | .null, .null => true
  | .null, _ => false
  | _, .null => false
  | .slice a, .slice b => if a.length != b.length then false else slicesLoop a b
  | .strSlice a, .strSlice b => stringSlicesEqual a b
  | .map a, .map b => if a.length != b.length then false else mapsLoop a b
  | a, b => deepEqual a b
/-- The `for i := range a` of `slicesEqual`, on the remaining elements of
both slices.  The second case (no `b[i]`) is excluded by the length test. -/
def slicesLoop : List Value → List Value → Bool
  | [], _ => true
  | _ :: _, [] => false
  | x :: xs, y :: ys => if !valuesEqual x y then false else slicesLoop xs ys
/-- The `for key, aVal := range a` of `mapsEqual`, on the remaining entries
of `a`, with `b` whole. -/
def mapsLoop : List (String × Value) → List (String × Value) → Bool
  | [], _ => true
  | (key, aVal) :: rest, b =>
    match b.lookup key with
    | none => false
    | some bVal => if !valuesEqual aVal bVal then false else mapsLoop rest b
end

/-- Function `slicesEqual` of compare.go: the length test, then the loop over the indices of `a`. -/
def slicesEqual (a b : List Value) : Bool :=
  if a.length != b.length then false else slicesLoop a b

/-- Function `mapsEqual` of compare.go: the size test, then the loop over the entries of `a`. -/
def mapsEqual (a b : List (String × Value)) : Bool :=
  if a.length != b.length then false else mapsLoop a b

/-- The `for _, char := range path` of `splitPath`: the loop state is
`(result, current)`. -/
def splitPathLoop : List Char → List String → String → List String × String
  | [], result, current => (result, current)
  | char :: rest, result, current =>
    if char == '.' then
      if current != "" then splitPathLoop rest (result ++ [current]) ""
      else splitPathLoop rest result current
    else splitPathLoop rest result (current ++ String.singleton char)

/-- Function `splitPath` of compare.go: splits a path by dots. -/
def splitPath (path : String) : List String :=
  match splitPathLoop path.toList [] "" with
  | (result, current) => if current != "" then result ++ [current] else result

/-- The `for _, key := range keys` of `getNestedValue`, from `current`. -/
def walkKeys : List String → Value → Value
  | [], current => current
  | key :: keys, current =>
    match current with
    | .map v =>
      match v.lookup key with
      | some val => walkKeys keys val
      | none => .null
    | _ => .null

/-- Function `getNestedValue` of compare.go.  The bag is `none` for the nil map. -/
def getNestedValue (data : Option Bag) (path : String) : Value :=
  match data with
  | none => .null
  | some d =>
    match d.lookup path with
    | some val => val
    | none => walkKeys (splitPath path) (.map d)

/-- Struct `AttributeDrift` of types.go. -/
structure AttributeDrift where
  Attribute : String
  AWSValue : Value
  TerraformValue : Value
  Path : String

/-- Method `compareAttribute` of detector.go: `none` is the nil pointer. -/
def compareAttribute (attr : String) (awsConfig tfConfig : Option Bag) : Option AttributeDrift :=
  let awsValue := getNestedValue awsConfig attr
  let tfValue := getNestedValue tfConfig attr
  if !valuesEqual awsValue tfValue then
    some { Attribute := attr, AWSValue := awsValue, TerraformValue := tfValue, Path := attr }
  else none

/-- The integer that a `float64` bit pattern denotes, when it denotes one:
a normal float is `(2^52 + fraction) * 2^(exponent - 1075)` with its sign, a
zero is `0`, and subnormals, infinities and NaNs are no integers. -/
def floatIntValue (bits : Nat) : Option Int :=
  let e := (bits / 2 ^ 52) % 2 ^ 11
  let m := bits % 2 ^ 52
  let mag : Option Nat :=
    if e == 0 then (if m == 0 then some 0 else none)
    else if e == 2 ^ 11 - 1 then none
    else if 1075 ≤ e then some ((2 ^ 52 + m) * 2 ^ (e - 1075))
    else if (2 ^ 52 + m) % 2 ^ (1075 - e) == 0 then some ((2 ^ 52 + m) / 2 ^ (1075 - e))
    else none
  mag.map (fun n => if (bits / 2 ^ 63) % 2 == 1 then - (n : Int) else (n : Int))

/-! ## The resolver and the path splitter in the words of the specification -/

/-- One step of the walk as the specification words it: the current value
must be a bag that holds the next segment, otherwise the resolution fails. -/
def resolveStep (current : Value) (segment : String) : Option Value :=
  match current with
  | .map bag => bag.lookup segment
  | _ => none

/-- The walk as the specification words it: every segment is resolved in
turn from the bag; a failed step yields the absent value, and when all
segments resolve the final value is returned. -/
def resolveSpec (bag : Bag) (segments : List String) : Value :=
  (segments.foldlM resolveStep (Value.map bag)).getD .null

/-- The segments of a path as the specification words them: the path is
split at every `.` and the empty pieces are discarded. -/
def splitPathSpec (path : String) : List String :=
  (path.split (fun c => c == '.')).filter (fun piece => piece != "")

/-! ## The drift detection engine -/

/-- Struct `Result` of types.go; `Error` holds the message of the error. -/
structure Result where
  InstanceID : String
  HasDrift : Bool
  Drifts : List AttributeDrift
  Error : Option String

/-- Struct `Detector` of detector.go.  The two providers are deterministic:
`ec2Client` is `GetInstance` and `tfParser` is `GetInstanceConfig`, each
returning the pair of Go, a bag (`none` for the nil map) and an error
(`none` for nil). -/
structure Detector where
  ec2Client : String → Option Bag × Option String
  tfParser : String → Option Bag × Option String
  attributes : List String

/-- The `for _, attr := range d.attributes` of `detectSingleInstance`, on
the remaining attributes. -/
def compareLoop (awsConfig tfConfig : Option Bag) : List String → Result → Result
  | [], result => result
  | attr :: rest, result =>
    match compareAttribute attr awsConfig tfConfig with
    | some drift =>
      compareLoop awsConfig tfConfig rest
        { result with Drifts := result.Drifts ++ [drift], HasDrift := true }
    | none => compareLoop awsConfig tfConfig rest result

/-- Method `detectSingleInstance` of detector.go; `fmt.Errorf` with `%w`
puts its text before the message of the wrapped error. -/
def detectSingleInstance (d : Detector) (instanceID : String) : Result :=
  let result : Result :=
    { InstanceID := instanceID, HasDrift := false, Drifts := [], Error := none }
  match d.ec2Client instanceID with
  | (_, some err) => { result with Error := some ("failed to get AWS instance: " ++ err) }
  | (awsConfig, none) =>
    match d.tfParser instanceID with
    | (_, some err) => { result with Error := some ("failed to get Terraform config: " ++ err) }
    | (tfConfig, none) => compareLoop awsConfig tfConfig d.attributes result

/-- The `for _, instanceID := range instanceIDs` of `Detect`, on the
remaining identifiers. -/
def detectLoop (d : Detector) : List String → List Result → List Result
  | [], results => results
  | instanceID :: rest, results =>
    detectLoop d rest (results ++ [detectSingleInstance d instanceID])

/-- Method `Detect` of detector.go: the results and the error, which is
always nil. -/
def Detect (d : Detector) (instanceIDs : List String) : List Result × Option String :=
  (detectLoop d instanceIDs [], none)

/-- The zero value of `Result`, which fills the slice that `make` returns. -/
def zeroResult : Result :=
  { InstanceID := "", HasDrift := false, Drifts := [], Error := none }

/-- One unit of work of `DetectConcurrent` completing: the goroutine started
for index `idx` stores its result in `results[idx]`. -/
def completeUnit (d : Detector) (instanceIDs : List String) (results : List Result)
    (idx : Nat) : List Result :=
  match instanceIDs[idx]? with
  | some id => results.set idx (detectSingleInstance d id)
  | none => results

/-- Method `DetectConcurrent` of detector.go, for a given order in which the
units of work complete: the slots are allocated, every unit stores its
result when it completes, and after `wg.Wait()` the slice is returned with
the nil error.  The semaphore only restricts which orders can occur. -/
def DetectConcurrent (d : Detector) (instanceIDs : List String) (completion : List Nat) :
    List Result × Option String :=
  (completion.foldl (completeUnit d instanceIDs)
    (List.replicate instanceIDs.length zeroResult), none)

/-! ## Normalisation of the declared state -/

/-- The `for _, item := range v` of `convertToStringSlice`, on the remaining
items. -/
def convertLoop : List Value → List String → List String
  | [], result => result
  | item :: rest, result =>
    match item with
    | .str str => convertLoop rest (result ++ [str])
    | _ => convertLoop rest result

/-- Function `convertToStringSlice` of state.go. -/
def convertToStringSlice (val : Value) : List String :=
  match val with
  | .strSlice v => v
  | .slice v => convertLoop v []
  | .str v => [v]
  | _ => []

/-- The string that a value holds, when its dynamic type is `string`: the
type assertion `item.(string)`. -/
def asString : Value → Option String
  | .str s => some s
  | _ => none

/-! ## The summaries of the reporters -/

/-- The `Summary` struct of `JSONReporter.Report`. -/
structure Summary where
  Total : Nat
  WithDrift : Nat
  WithErrors : Nat
  InSync : Nat

/-- The `for _, result := range results` of `JSONReporter.Report`, on the
remaining results. -/
def jsonSummaryLoop : List Result → Summary → Summary
  | [], summary => summary
  | result :: rest, summary =>
    let counted := { summary with Total := summary.Total + 1 }
    if result.Error.isSome then
      jsonSummaryLoop rest { counted with WithErrors := counted.WithErrors + 1 }
    else if result.HasDrift then
      jsonSummaryLoop rest { counted with WithDrift := counted.WithDrift + 1 }
    else
      jsonSummaryLoop rest { counted with InSync := counted.InSync + 1 }

/-- The summary that `JSONReporter.Report` marshals with the results. -/
def jsonSummary (results : List Result) : Summary :=
  jsonSummaryLoop results { Total := 0, WithDrift := 0, WithErrors := 0, InSync := 0 }

/-- The `for _, result := range results` of `ConsoleReporter.Report`, on the
remaining results: the loop state is `(totalDrift, totalErrors)`; the lines
that the loop prints are left out. -/
def consoleCountLoop : List Result → Nat × Nat → Nat × Nat
  | [], counts => counts
  | result :: rest, (totalDrift, totalErrors) =>
    if result.Error.isSome then consoleCountLoop rest (totalDrift, totalErrors + 1)
    else if result.HasDrift then consoleCountLoop rest (totalDrift + 1, totalErrors)
    else consoleCountLoop rest (totalDrift, totalErrors)

/-- The four numbers of the summary that `ConsoleReporter.Report` prints:
checked, with drift, with errors, in sync (an `int` subtraction). -/
def consoleSummary (results : List Result) : Int × Int × Int × Int :=
  match consoleCountLoop results (0, 0) with
  | (totalDrift, totalErrors) =>
    ((results.length : Int), (totalDrift : Int), (totalErrors : Int),
      (results.length : Int) - (totalDrift : Int) - (totalErrors : Int))

/-! ## The parser of the Terraform state -/

/-- Struct `ResourceInstance` of terraform/types.go.  A nil `Attributes` map
is the empty bag: it is only read. -/
structure ResourceInstance where
  SchemaVersion : Int
  Attributes : Bag
  Private : String
  Dependencies : List String

/-- Struct `Resource` of terraform/types.go; `Type_` is its field `Type`. -/
structure Resource where
  Mode : String
  Type_ : String
  Name : String
  Provider : String
  Instances : List ResourceInstance

/-- Struct `State` of terraform/types.go. -/
structure State where
  Version : Int
  TerraformVersion : String
  Resources : List Resource
  Outputs : Bag

/-- Struct `StateParser` of state.go; `state` is `none` for the nil pointer,
before the state file is loaded. -/
structure StateParser where
  statePath : String
  state : Option State

/-- Method `loadState` of state.go: the state that `p.state` points to after
the call, or the error.  The outcome of reading and parsing the file at
`statePath` is the argument `file`, an error with its message or the parsed
state; it is only used when no state is loaded yet. -/
def loadState (p : StateParser) (file : Except String State) : Except String State :=
  match p.state with
  | some state => .ok state
  | none => file

/-- The assignment `m[key] = val` on a map. -/
def mapSet (m : Bag) (key : String) (val : Value) : Bag :=
  if (m.lookup key).isSome then m.map (fun kv => if kv.1 == key then (kv.1, val) else kv)
  else m ++ [(key, val)]

/-- The body of the last loop of `normalizeAttributes` on one value: a
`float64` with `f == float64(int64(f))` becomes the `int64`.  The conversion
of Go is the argument `int64OfFloat`, which gives `int64(f)` when the test
holds and `none` when it does not. -/
def normalizeNumber (int64OfFloat : Nat → Option Int) : Value → Value
  | .float64 f =>
    match int64OfFloat f with
    | some n => .int64 n
    | none => .float64 f
  | v => v

/-- Method `normalizeAttributes` of state.go.  The copy of `attrs` is `attrs`
itself (its keys are distinct), and the last loop visits every entry once. -/
def normalizeAttributes (int64OfFloat : Nat → Option Int) (attrs : Bag) : Bag :=
  let normalized := attrs
  let normalized :=
    match attrs.lookup "vpc_security_group_ids" with
    | some sgIDs =>
      mapSet normalized "vpc_security_group_ids" (.strSlice (convertToStringSlice sgIDs))
    | none => normalized
  let normalized :=
    match attrs.lookup "tags" with
    | some (.map tags) => mapSet normalized "tags" (.map tags)
    | _ => normalized
  normalized.map (fun kv => (kv.1, normalizeNumber int64OfFloat kv.2))

/-- The value `m[key]` of Go: the nil interface for a missing key. -/
def mapIndex (m : Bag) (key : String) : Value :=
  (m.lookup key).getD .null

/-- The `for _, instance := range resource.Instances` of `GetInstanceConfig`:
the normalised attributes of the first instance whose `id` attribute is the
string `instanceID`, or `none` when the loop ends without a return. -/
def findInInstances (int64OfFloat : Nat → Option Int) (instanceID : String) :
    List ResourceInstance → Option Bag
  | [] => none
  | inst :: rest =>
    match asString (mapIndex inst.Attributes "id") with
    | some id =>
      if id == instanceID then some (normalizeAttributes int64OfFloat inst.Attributes)
      else findInInstances int64OfFloat instanceID rest
    | none => findInInstances int64OfFloat instanceID rest

/-- The `for _, resource := range p.state.Resources` of `GetInstanceConfig`. -/
def findInResources (int64OfFloat : Nat → Option Int) (instanceID : String) :
    List Resource → Option Bag
  | [] => none
  | resource :: rest =>
    if resource.Type_ == "aws_instance" then
      match findInInstances int64OfFloat instanceID resource.Instances with
      | some attrs => some attrs
      | none => findInResources int64OfFloat instanceID rest
    else findInResources int64OfFloat instanceID rest

/-- Method `GetInstanceConfig` of state.go: the bag and the error. -/
def GetInstanceConfig (int64OfFloat : Nat → Option Int) (p : StateParser)
    (file : Except String State) (instanceID : String) : Option Bag × Option String :=
  match loadState p file with
  | .error err => (none, some err)
  | .ok state =>
    match findInResources int64OfFloat instanceID state.Resources with
    | some attrs => (some attrs, none)
    | none => (none, some ("instance " ++ instanceID ++ " not found in Terraform state"))

/-- The `for _, instance := range resource.Instances` of `GetAllInstances`. -/
def appendInstances (int64OfFloat : Nat → Option Int) :
    List ResourceInstance → List Bag → List Bag
  | [], instances => instances
  | inst :: rest, instances =>
    appendInstances int64OfFloat rest
      (instances ++ [normalizeAttributes int64OfFloat inst.Attributes])

/-- The `for _, resource := range p.state.Resources` of `GetAllInstances`. -/
def allInstancesLoop (int64OfFloat : Nat → Option Int) : List Resource → List Bag → List Bag
  | [], instances => instances
  | resource :: rest, instances =>
    if resource.Type_ == "aws_instance" then
      allInstancesLoop int64OfFloat rest (appendInstances int64OfFloat resource.Instances instances)
    else allInstancesLoop int64OfFloat rest instances

/-- Method `GetAllInstances` of state.go: the instances and the error. -/
def GetAllInstances (int64OfFloat : Nat → Option Int) (p : StateParser)
    (file : Except String State) : List Bag × Option String :=
  match loadState p file with
  | .error err => ([], some err)
  | .ok state => (allInstancesLoop int64OfFloat state.Resources [], none)

/-- The `for _, instance := range instances` of `GetInstanceIDs`. -/
def instanceIDsLoop : List Bag → List String → List String
  | [], ids => ids
  | inst :: rest, ids =>
    match asString (mapIndex inst "id") with
    | some id => instanceIDsLoop rest (ids ++ [id])
    | none => instanceIDsLoop rest ids

/-- Method `GetInstanceIDs` of state.go: the identifiers and the error. -/
def GetInstanceIDs (int64OfFloat : Nat → Option Int) (p : StateParser)
    (file : Except String State) : List String × Option String :=
  match GetAllInstances int64OfFloat p file with
  | (_, some err) => ([], some err)
  | (instances, none) => (instanceIDsLoop instances [], none)

/-- The conversion `int64(f)` for the floats with `f == float64(int64(f))`:
the integer-valued floats within the range of `int64`. -/
def int64OfFloat64 (f : Nat) : Option Int :=
  match floatIntValue f with
  | some n => if -(2 ^ 63 : Int) ≤ n ∧ n < 2 ^ 63 then some n else none
  | none => none

/-! ## Bags of the test scenarios -/

/-- Live bag of `TestDetector_TagsDrift`. -/
def liveTags : Bag := [("tags", .map [("Environment", .str "production")])]

/-- Declared bag of `TestDetector_TagsDrift`. -/
def declaredTags : Bag := [("tags", .map [("Environment", .str "staging")])]

/-- The drift that `TestDetector_TagsDrift` expects on `tags`. -/
def tagsDrift : AttributeDrift :=
  { Attribute := "tags", AWSValue := .map [("Environment", .str "production")],
    TerraformValue := .map [("Environment", .str "staging")], Path := "tags" }

/-- Live bag of `TestDetector_SecurityGroupsDrift`, with two groups. -/
def liveGroups : Bag := [("vpc_security_group_ids", .strSlice ["sg-123", "sg-456"])]

/-- The same two groups in the other order. -/
def declaredGroups : Bag := [("vpc_security_group_ids", .strSlice ["sg-456", "sg-123"])]

/-- A bag with a top-level key that contains a dot, next to a nested bag
that the same dotted path would reach. -/
def dottedBag : Bag :=
  [("a", .map [("b", .str "nested")]), ("a.b", .str "direct")]

/-- A nested value: a bag with a sequence, a string sequence and a bag. -/
def nestedValue : Value :=
  .map [("ids", .strSlice ["sg-1", "sg-2"]),
        ("list", .slice [.int 1, .null, .str "x", .float64 0]),
        ("tags", .map [("Name", .str "web"), ("on", .bool true)])]

/-- The bag of `nestedValue` with its entries in another order. -/
def nestedValueReordered : Value :=
  .map [("tags", .map [("on", .bool true), ("Name", .str "web")]),
        ("ids", .strSlice ["sg-1", "sg-2"]),
        ("list", .slice [.int 1, .null, .str "x", .float64 (2 ^ 63)])]

/-- The bag of `TestGetNestedValue`. -/
def nestedTestBag : Bag :=
  [("simple", .str "value"), ("nested", .map [("key", .str "nested_value")])]

/-- Live-state provider of `TestDetector_Detect_WithDrift`, with a second
instance that the provider fails for. -/
def testEC2 (instanceID : String) : Option Bag × Option String :=
  if instanceID == "i-test" then (some [("instance_type", .str "t3.large")], none)
  else if instanceID == "i-same" then
    (some [("ami", .str "ami-12345"), ("instance_type", .str "t3.medium")], none)
  else (none, some "instance not found")

/-- Declared-state provider of `TestDetector_Detect_WithDrift`: every
instance is declared as `t3.medium`. -/
def testTF (instanceID : String) : Option Bag × Option String :=
  if instanceID == "i-gone" then (none, some "instance not found in Terraform state")
  else (some [("instance_type", .str "t3.medium"), ("ami", .str "ami-12345")], none)

/-- Detector over the two test providers, checking `instance_type` and
`ami`. -/
def testDetector : Detector :=
  { ec2Client := testEC2, tfParser := testTF, attributes := ["instance_type", "ami"] }

/-- The identifiers of a batch: one drifting, one failing, one in sync. -/
def testIDs : List String := ["i-test", "i-missing", "i-same"]

/-- A state with two resources: an `aws_instance` with an instance `i-1`
(a generic sequence of groups, a float count) and an instance without an
`id`, and a security group whose `id` is no instance. -/
def testState : State :=
  { Version := 4, TerraformVersion := "1.5.0", Outputs := [],
    Resources :=
      [{ Mode := "managed", Type_ := "aws_security_group", Name := "sg", Provider := "aws",
         Instances := [{ SchemaVersion := 1, Attributes := [("id", .str "sg-1")],
                         Private := "", Dependencies := [] }] },
       { Mode := "managed", Type_ := "aws_instance", Name := "web", Provider := "aws",
         Instances :=
           [{ SchemaVersion := 1, Attributes := [("ami", .str "ami-12345")],
              Private := "", Dependencies := [] },
            { SchemaVersion := 1,
              Attributes := [("id", .str "i-1"), ("cpu_core_count", .float64 0x4014000000000000),
                             ("vpc_security_group_ids", .slice [.str "sg-1"])],
              Private := "", Dependencies := [] }] }] }

/-- A parser that has loaded `testState`. -/
def testParser : StateParser := { statePath := "terraform.tfstate", state := some testState }

/-! ## Induction over values and facts about association lists -/

/-- Induction over values: the hypotheses for a slice and for a map are the
property of every element, respectively of every entry's value. -/
theorem Value.induct {P : Value → Prop}
    (hnull : P .null) (hstr : ∀ s, P (.str s)) (hint : ∀ n, P (.int n))
    (hint64 : ∀ n, P (.int64 n)) (hfloat : ∀ f, P (.float64 f)) (hbool : ∀ b, P (.bool b))
    (hslice : ∀ xs, (∀ x ∈ xs, P x) → P (.slice xs))
    (hstrs : ∀ xs, P (.strSlice xs))
    (hmap : ∀ kvs, (∀ p ∈ kvs, P p.2) → P (.map kvs)) : ∀ v, P v := by
  intro v
  refine Value.rec (motive_1 := P) (motive_2 := fun xs => ∀ x ∈ xs, P x)
    (motive_3 := fun kvs => ∀ p ∈ kvs, P p.2) (motive_4 := fun p => P p.2)
    hnull hstr hint hint64 hfloat hbool hslice hstrs hmap ?_ ?_ ?_ ?_ ?_ v
  · intro x hx
    cases hx
  · intro x xs hx hxs y hy
    rcases List.mem_cons.1 hy with h | h
    · exact h ▸ hx
    · exact hxs y h
  · intro p hp
    cases hp
  · intro p ps hp hps q hq
    rcases List.mem_cons.1 hq with h | h
    · exact h ▸ hp
    · exact hps q h
  · intro k x hx
    exact hx

theorem lookup_mem {k : String} {v : Value} :
    ∀ {l : List (String × Value)}, l.lookup k = some v → (k, v) ∈ l
  | [], h => by simp at h
  | (j, w) :: l, h => by
    by_cases hkj : k = j
    · subst hkj
      simp at h
      simp [h]
    · have hne : (k == j) = false := by simpa using hkj
      rw [List.lookup_cons, hne] at h
      exact List.mem_cons_of_mem _ (lookup_mem h)

theorem lookup_of_mem {k : String} {v : Value} :
    ∀ {l : List (String × Value)}, (l.map Prod.fst).Nodup → (k, v) ∈ l → l.lookup k = some v
  | [], _, h => by cases h
  | (j, w) :: l, hnd, h => by
    rw [List.map_cons, List.nodup_cons] at hnd
    rcases List.mem_cons.1 h with h1 | h2
    · cases h1
      simp
    · have hkj : k ≠ j := by
        intro hkj
        exact hnd.1 (List.mem_map.2 ⟨(k, v), h2, hkj⟩)
      have hne : (k == j) = false := by simpa using hkj
      rw [List.lookup_cons, hne]
      exact lookup_of_mem hnd.2 h2

theorem lookup_isSome_of_key {k : String} :
    ∀ {l : List (String × Value)}, k ∈ l.map Prod.fst → ∃ v, l.lookup k = some v ∧ (k, v) ∈ l
  | [], h => by cases h
  | (j, w) :: l, h => by
    by_cases hkj : k = j
    · subst hkj
      exact ⟨w, by simp, by simp⟩
    · have hne : (k == j) = false := by simpa using hkj
      rw [List.map_cons, List.mem_cons] at h
      rcases h with h | h
      · exact absurd h hkj
      · obtain ⟨v, hv, hm⟩ := lookup_isSome_of_key h
        exact ⟨v, by rw [List.lookup_cons, hne]; exact hv, List.mem_cons_of_mem _ hm⟩

/-- Two maps of the same size, the first with distinct keys and every key of
the first a key of the second: every key of the second is a key of the first. -/
theorem keys_subset_of_length_eq {a b : List (String × Value)}
    (hnd : (a.map Prod.fst).Nodup) (hlen : a.length = b.length)
    (hsub : ∀ k ∈ a.map Prod.fst, k ∈ b.map Prod.fst) :
    ∀ k ∈ b.map Prod.fst, k ∈ a.map Prod.fst := by
  have hsp : List.Subperm (a.map Prod.fst) (b.map Prod.fst) := List.subperm_of_subset hnd hsub
  have hperm : List.Perm (a.map Prod.fst) (b.map Prod.fst) :=
    hsp.perm_of_length_le (by simp [hlen])
  intro k hk
  exact hperm.mem_iff.2 hk

/-! ## The loops of the equality checker -/

theorem valuesEqual_slice (a b : List Value) :
    valuesEqual (.slice a) (.slice b) = slicesEqual a b := by
  simp [valuesEqual, slicesEqual]

theorem valuesEqual_map (a b : List (String × Value)) :
    valuesEqual (.map a) (.map b) = mapsEqual a b := by
  simp [valuesEqual, mapsEqual]

theorem slicesLoop_iff : ∀ (a b : List Value), a.length = b.length →
    (slicesLoop a b = true ↔
      ∀ i (ha : i < a.length) (hb : i < b.length), valuesEqual a[i] b[i] = true)
  | [], [], _ => by simp [slicesLoop]
  | [], _ :: _, h => by simp at h
  | _ :: _, [], h => by simp at h
  | x :: xs, y :: ys, h => by
    have ih := slicesLoop_iff xs ys (by simpa using h)
    simp only [slicesLoop]
    constructor
    · intro hl i ha hb
      cases hxy : valuesEqual x y
      · simp [hxy] at hl
      · simp [hxy] at hl
        cases i with
        | zero => simpa using hxy
        | succ i => simpa using ih.1 hl i (by simpa using ha) (by simpa using hb)
    · intro hall
      have h0 := hall 0 (by simp) (by simp)
      simp at h0
      simp [h0]
      exact ih.2 (fun i ha hb => by
        simpa using hall (i + 1) (by simpa using ha) (by simpa using hb))

theorem mapsLoop_iff : ∀ (a b : List (String × Value)),
    (mapsLoop a b = true ↔
      ∀ k v, (k, v) ∈ a → ∃ w, b.lookup k = some w ∧ valuesEqual v w = true)
  | [], b => by simp [mapsLoop]
  | (key, aVal) :: rest, b => by
    have ih := mapsLoop_iff rest b
    simp only [mapsLoop]
    constructor
    · intro hl k v hkv
      cases hb : b.lookup key with
      | none => simp [hb] at hl
      | some bVal =>
        simp only [hb] at hl
        cases hxy : valuesEqual aVal bVal
        · simp [hxy] at hl
        · simp [hxy] at hl
          rcases List.mem_cons.1 hkv with h | h
          · cases h
            exact ⟨bVal, hb, hxy⟩
          · exact ih.1 hl k v h
    · intro hall
      obtain ⟨w, hw, hvw⟩ := hall key aVal (by simp)
      simp only [hw, hvw]
      simp
      exact ih.2 (fun k v hkv => hall k v (List.mem_cons_of_mem _ hkv))

theorem stringSlicesLoop_iff : ∀ (a b : List String), a.length = b.length →
    (stringSlicesLoop a b = true ↔ a = b)
  | [], [], _ => by simp [stringSlicesLoop]
  | [], _ :: _, h => by simp at h
  | _ :: _, [], h => by simp at h
  | x :: xs, y :: ys, h => by
    have ih := stringSlicesLoop_iff xs ys (by simpa using h)
    simp only [stringSlicesLoop]
    by_cases hxy : x = y
    · simp [hxy, ih]
    · simp [hxy]

theorem stringSlicesEqual_iff (a b : List String) :
    stringSlicesEqual a b = true ↔ a = b := by
  unfold stringSlicesEqual
  by_cases h : a.length = b.length
  · simp [h, stringSlicesLoop_iff a b h]
  · have hne : a ≠ b := fun hab => h (by rw [hab])
    simp [h, hne]

theorem uniqueKeysList_iff : ∀ (xs : List Value),
    Value.uniqueKeysList xs = true ↔ ∀ x ∈ xs, x.uniqueKeys = true
  | [] => by simp [Value.uniqueKeysList]
  | x :: xs => by simp [Value.uniqueKeysList, uniqueKeysList_iff xs]

theorem uniqueKeysEntries_iff : ∀ (kvs : List (String × Value)),
    Value.uniqueKeysEntries kvs = true ↔ ∀ p ∈ kvs, p.2.uniqueKeys = true
  | [] => by simp [Value.uniqueKeysEntries]
  | (k, x) :: kvs => by simp [Value.uniqueKeysEntries, uniqueKeysEntries_iff kvs]

theorem noNaNList_iff : ∀ (xs : List Value),
    Value.noNaNList xs = true ↔ ∀ x ∈ xs, x.noNaN = true
  | [] => by simp [Value.noNaNList]
  | x :: xs => by simp [Value.noNaNList, noNaNList_iff xs]

theorem noNaNEntries_iff : ∀ (kvs : List (String × Value)),
    Value.noNaNEntries kvs = true ↔ ∀ p ∈ kvs, p.2.noNaN = true
  | [] => by simp [Value.noNaNEntries]
  | (k, x) :: kvs => by simp [Value.noNaNEntries, noNaNEntries_iff kvs]

theorem uniqueKeys_map_iff (kvs : List (String × Value)) :
    (Value.map kvs).uniqueKeys = true ↔
      (kvs.map Prod.fst).Nodup ∧ ∀ p ∈ kvs, p.2.uniqueKeys = true := by
  simp [Value.uniqueKeys, uniqueKeysEntries_iff]

/-! ## Equality of floats -/

theorem floatEq_comm (a b : Nat) : floatEq a b = floatEq b a := by
  unfold floatEq
  rw [Bool.or_comm (isNaN a) (isNaN b), Bool.and_comm (a % 2 ^ 63 == 0) (b % 2 ^ 63 == 0),
    BEq.comm (a := a % 2 ^ 64) (b := b % 2 ^ 64)]

theorem floatEq_refl (a : Nat) (h : isNaN a = false) : floatEq a a = true := by
  simp [floatEq, h]

theorem floatEq_trans (a b c : Nat) (hab : floatEq a b = true) (hbc : floatEq b c = true) :
    floatEq a c = true := by
  unfold floatEq at *
  cases ha : isNaN a <;> cases hb : isNaN b <;> cases hc : isNaN c <;>
    simp [ha, hb, hc] at hab hbc ⊢
  omega

/-! ## What a value equal to a given one looks like -/

theorem valuesEqual_null_left (b : Value) : valuesEqual .null b = true ↔ b = .null := by
  cases b <;> simp [valuesEqual]

theorem valuesEqual_str_left (s : String) (b : Value) :
    valuesEqual (.str s) b = true ↔ b = .str s := by
  cases b <;> simp [valuesEqual, deepEqual]
  exact eq_comm

theorem valuesEqual_int_left (n : Int) (b : Value) :
    valuesEqual (.int n) b = true ↔ b = .int n := by
  cases b <;> simp [valuesEqual, deepEqual]
  exact eq_comm

theorem valuesEqual_int64_left (n : Int) (b : Value) :
    valuesEqual (.int64 n) b = true ↔ b = .int64 n := by
  cases b <;> simp [valuesEqual, deepEqual]
  exact eq_comm

theorem valuesEqual_bool_left (x : Bool) (b : Value) :
    valuesEqual (.bool x) b = true ↔ b = .bool x := by
  cases b <;> simp [valuesEqual, deepEqual]
  exact eq_comm

theorem valuesEqual_float_left (f : Nat) (b : Value) :
    valuesEqual (.float64 f) b = true ↔ ∃ g, b = .float64 g ∧ floatEq f g = true := by
  cases b <;> simp [valuesEqual, deepEqual]

theorem valuesEqual_strSlice_left (xs : List String) (b : Value) :
    valuesEqual (.strSlice xs) b = true ↔ b = .strSlice xs := by
  cases b <;> simp [valuesEqual, deepEqual, stringSlicesEqual_iff]
  exact eq_comm

theorem valuesEqual_slice_left (xs : List Value) (b : Value) :
    valuesEqual (.slice xs) b = true ↔ ∃ ys, b = .slice ys ∧ slicesEqual xs ys = true := by
  cases b <;> simp [valuesEqual, deepEqual, slicesEqual]

theorem valuesEqual_map_left (kvs : List (String × Value)) (b : Value) :
    valuesEqual (.map kvs) b = true ↔ ∃ kvs2, b = .map kvs2 ∧ mapsEqual kvs kvs2 = true := by
  cases b <;> simp [valuesEqual, deepEqual, mapsEqual]

theorem slicesEqual_iff (a b : List Value) :
    slicesEqual a b = true ↔ a.length = b.length ∧
      ∀ i (ha : i < a.length) (hb : i < b.length), valuesEqual a[i] b[i] = true := by
  unfold slicesEqual
  by_cases h : a.length = b.length
  · simp [h, slicesLoop_iff a b h]
  · simp [h]

theorem mapsEqual_iff (a b : List (String × Value)) :
    mapsEqual a b = true ↔ a.length = b.length ∧
      ∀ k v, (k, v) ∈ a → ∃ w, b.lookup k = some w ∧ valuesEqual v w = true := by
  unfold mapsEqual
  by_cases h : a.length = b.length
  · simp [h, mapsLoop_iff a b]
  · simp [h]

/-! ## The equality checker is an equivalence on well-formed values -/

theorem valuesEqual_refl_aux : ∀ (a : Value), a.uniqueKeys = true → a.noNaN = true →
    valuesEqual a a = true := by
  intro a
  induction a using Value.induct with
  | hnull => intros; rfl
  | hstr s => intros; simp [valuesEqual, deepEqual]
  | hint n => intros; simp [valuesEqual, deepEqual]
  | hint64 n => intros; simp [valuesEqual, deepEqual]
  | hfloat f =>
    intro _ hn
    have h2 : (!isNaN f) = true := hn
    have hf : isNaN f = false := by simpa using h2
    simp [valuesEqual, deepEqual, floatEq_refl f hf]
  | hbool b => intros; simp [valuesEqual, deepEqual]
  | hslice xs ih =>
    intro hu hn
    rw [valuesEqual_slice, slicesEqual_iff]
    refine ⟨rfl, fun i ha _ => ?_⟩
    have hmem : xs[i] ∈ xs := List.getElem_mem ha
    exact ih _ hmem ((uniqueKeysList_iff xs).1 (by simpa [Value.uniqueKeys] using hu) _ hmem)
      ((noNaNList_iff xs).1 (by simpa [Value.noNaN] using hn) _ hmem)
  | hstrs xs => intros; simp [valuesEqual, stringSlicesEqual_iff]
  | hmap kvs ih =>
    intro hu hn
    rw [valuesEqual_map, mapsEqual_iff]
    obtain ⟨hnd, hvals⟩ := (uniqueKeys_map_iff kvs).1 hu
    refine ⟨rfl, fun k v hkv => ⟨v, lookup_of_mem hnd hkv, ?_⟩⟩
    exact ih _ hkv (hvals _ hkv) ((noNaNEntries_iff kvs).1 (by simpa [Value.noNaN] using hn) _ hkv)

theorem valuesEqual_imp_symm : ∀ (a b : Value), a.uniqueKeys = true → b.uniqueKeys = true →
    valuesEqual a b = true → valuesEqual b a = true := by
  intro a
  induction a using Value.induct with
  | hnull =>
    intro b _ _ h
    rw [(valuesEqual_null_left b).1 h]
    rfl
  | hstr s =>
    intro b _ _ h
    rw [(valuesEqual_str_left s b).1 h]
    simp [valuesEqual, deepEqual]
  | hint n =>
    intro b _ _ h
    rw [(valuesEqual_int_left n b).1 h]
    simp [valuesEqual, deepEqual]
  | hint64 n =>
    intro b _ _ h
    rw [(valuesEqual_int64_left n b).1 h]
    simp [valuesEqual, deepEqual]
  | hfloat f =>
    intro b _ _ h
    obtain ⟨g, rfl, hfg⟩ := (valuesEqual_float_left f b).1 h
    rw [valuesEqual_float_left]
    exact ⟨f, rfl, by rw [floatEq_comm]; exact hfg⟩
  | hbool x =>
    intro b _ _ h
    rw [(valuesEqual_bool_left x b).1 h]
    simp [valuesEqual, deepEqual]
  | hslice xs ih =>
    intro b hu hub h
    obtain ⟨ys, rfl, hxy⟩ := (valuesEqual_slice_left xs b).1 h
    rw [valuesEqual_slice, slicesEqual_iff]
    obtain ⟨hlen, hall⟩ := (slicesEqual_iff xs ys).1 hxy
    refine ⟨hlen.symm, fun i hb ha => ?_⟩
    have hx : xs[i] ∈ xs := List.getElem_mem ha
    have hy : ys[i] ∈ ys := List.getElem_mem hb
    exact ih _ hx _ ((uniqueKeysList_iff xs).1 (by simpa [Value.uniqueKeys] using hu) _ hx)
      ((uniqueKeysList_iff ys).1 (by simpa [Value.uniqueKeys] using hub) _ hy) (hall i ha hb)
  | hstrs xs =>
    intro b _ _ h
    rw [(valuesEqual_strSlice_left xs b).1 h]
    simp [valuesEqual, stringSlicesEqual_iff]
  | hmap kvs ih =>
    intro b hu hub h
    obtain ⟨kvs2, rfl, hxy⟩ := (valuesEqual_map_left kvs b).1 h
    rw [valuesEqual_map, mapsEqual_iff]
    obtain ⟨hlen, hall⟩ := (mapsEqual_iff kvs kvs2).1 hxy
    obtain ⟨hnd, hvals⟩ := (uniqueKeys_map_iff kvs).1 hu
    obtain ⟨hnd2, hvals2⟩ := (uniqueKeys_map_iff kvs2).1 hub
    refine ⟨hlen.symm, fun k w hkw => ?_⟩
    have hsub : ∀ j ∈ kvs.map Prod.fst, j ∈ kvs2.map Prod.fst := by
      intro j hj
      obtain ⟨p, hp, rfl⟩ := List.mem_map.1 hj
      obtain ⟨w2, hw2, _⟩ := hall p.1 p.2 hp
      exact List.mem_map.2 ⟨(p.1, w2), lookup_mem hw2, rfl⟩
    have hk : k ∈ kvs.map Prod.fst :=
      keys_subset_of_length_eq hnd hlen hsub k (List.mem_map.2 ⟨(k, w), hkw, rfl⟩)
    obtain ⟨v, hv, hkv⟩ := lookup_isSome_of_key hk
    obtain ⟨w2, hw2, hvw2⟩ := hall k v hkv
    have hww : w2 = w := by
      have := lookup_of_mem hnd2 hkw
      rw [hw2] at this
      exact Option.some.inj this
    subst hww
    exact ⟨v, hv, ih _ hkv _ (hvals _ hkv) (hvals2 _ hkw) hvw2⟩

theorem valuesEqual_symm_aux (a b : Value) (ha : a.uniqueKeys = true)
    (hb : b.uniqueKeys = true) : valuesEqual a b = valuesEqual b a := by
  cases hab : valuesEqual a b
  · cases hba : valuesEqual b a
    · rfl
    · rw [valuesEqual_imp_symm b a hb ha hba] at hab
      cases hab
  · exact (valuesEqual_imp_symm a b ha hb hab).symm

theorem valuesEqual_trans_aux : ∀ (a b c : Value),
    valuesEqual a b = true → valuesEqual b c = true → valuesEqual a c = true := by
  intro a
  induction a using Value.induct with
  | hnull =>
    intro b c hab hbc
    rw [(valuesEqual_null_left b).1 hab] at hbc
    exact hbc
  | hstr s =>
    intro b c hab hbc
    rw [(valuesEqual_str_left s b).1 hab] at hbc
    exact hbc
  | hint n =>
    intro b c hab hbc
    rw [(valuesEqual_int_left n b).1 hab] at hbc
    exact hbc
  | hint64 n =>
    intro b c hab hbc
    rw [(valuesEqual_int64_left n b).1 hab] at hbc
    exact hbc
  | hfloat f =>
    intro b c hab hbc
    obtain ⟨g, rfl, hfg⟩ := (valuesEqual_float_left f b).1 hab
    obtain ⟨h, rfl, hgh⟩ := (valuesEqual_float_left g c).1 hbc
    rw [valuesEqual_float_left]
    exact ⟨h, rfl, floatEq_trans f g h hfg hgh⟩
  | hbool x =>
    intro b c hab hbc
    rw [(valuesEqual_bool_left x b).1 hab] at hbc
    exact hbc
  | hslice xs ih =>
    intro b c hab hbc
    obtain ⟨ys, rfl, hxy⟩ := (valuesEqual_slice_left xs b).1 hab
    obtain ⟨zs, rfl, hyz⟩ := (valuesEqual_slice_left ys c).1 hbc
    rw [valuesEqual_slice, slicesEqual_iff]
    obtain ⟨hl1, h1⟩ := (slicesEqual_iff xs ys).1 hxy
    obtain ⟨hl2, h2⟩ := (slicesEqual_iff ys zs).1 hyz
    refine ⟨hl1.trans hl2, fun i ha hc => ?_⟩
    have hb : i < ys.length := hl1 ▸ ha
    exact ih _ (List.getElem_mem ha) _ _ (h1 i ha hb) (h2 i hb hc)
  | hstrs xs =>
    intro b c hab hbc
    rw [(valuesEqual_strSlice_left xs b).1 hab] at hbc
    exact hbc
  | hmap kvs ih =>
    intro b c hab hbc
    obtain ⟨kvs2, rfl, hxy⟩ := (valuesEqual_map_left kvs b).1 hab
    obtain ⟨kvs3, rfl, hyz⟩ := (valuesEqual_map_left kvs2 c).1 hbc
    rw [valuesEqual_map, mapsEqual_iff]
    obtain ⟨hl1, h1⟩ := (mapsEqual_iff kvs kvs2).1 hxy
    obtain ⟨hl2, h2⟩ := (mapsEqual_iff kvs2 kvs3).1 hyz
    refine ⟨hl1.trans hl2, fun k v hkv => ?_⟩
    obtain ⟨w, hw, hvw⟩ := h1 k v hkv
    obtain ⟨u, hu, hwu⟩ := h2 k w (lookup_mem hw)
    exact ⟨u, hu, ih _ hkv _ _ hvw hwu⟩

theorem lookup_none_of_not_key {k : String} :
    ∀ {l : List (String × Value)}, k ∉ l.map Prod.fst → l.lookup k = none
  | [], _ => rfl
  | (j, w) :: l, h => by
    rw [List.map_cons, List.mem_cons, not_or] at h
    have hne : (k == j) = false := by simpa using h.1
    rw [List.lookup_cons, hne]
    exact lookup_none_of_not_key h.2

/-- The integer-valued floats are no NaNs. -/
theorem isNaN_of_floatIntValue {f : Nat} {n : Int} (h : floatIntValue f = some n) :
    isNaN f = false := by
  unfold isNaN
  by_cases he : f / 4503599627370496 % 2048 = 2047
  · simp [floatIntValue, he] at h
  · simp [he]

/-! ## The attribute comparator -/

/-- C1: `compareAttribute P A B` returns nothing iff the two resolved values
are equal under `valuesEqual`, and a returned drift carries the path `P` (as
`Attribute` and as `Path`) and the two resolved values. -/
theorem compareAttribute_spec (P : String) (A B : Option Bag) :
    (compareAttribute P A B = none ↔
        valuesEqual (getNestedValue A P) (getNestedValue B P) = true) ∧
    (∀ d, compareAttribute P A B = some d →
        d.Attribute = P ∧ d.Path = P ∧ d.AWSValue = getNestedValue A P ∧
        d.TerraformValue = getNestedValue B P) := by
  unfold compareAttribute
  cases h : valuesEqual (getNestedValue A P) (getNestedValue B P)
  · refine ⟨by simp [h], ?_⟩
    intro d hd
    simp only [h, Bool.not_false, if_true, Option.some.injEq] at hd
    subst hd
    exact ⟨rfl, rfl, rfl, rfl⟩
  · exact ⟨by simp [h], by simp [h]⟩

/-- C1 at the tags scenario of the tests: the drift on `tags` carries the two
whole nested bags. -/
theorem compareAttribute_spec_witness :
    compareAttribute "tags" (some liveTags) (some declaredTags) = some tagsDrift ∧
    (tagsDrift.Attribute = "tags" ∧ tagsDrift.Path = "tags" ∧
      tagsDrift.AWSValue = getNestedValue (some liveTags) "tags" ∧
      tagsDrift.TerraformValue = getNestedValue (some declaredTags) "tags") :=
  ⟨rfl, (compareAttribute_spec "tags" (some liveTags) (some declaredTags)).2 tagsDrift rfl⟩

/-! ## The equality checker -/

/-- C2: `valuesEqual` is symmetric on values whose maps have distinct keys
(every Go map has): `valuesEqual a b = valuesEqual b a`. -/
theorem valuesEqual_symm (a b : Value) (ha : a.uniqueKeys = true) (hb : b.uniqueKeys = true) :
    valuesEqual a b = valuesEqual b a :=
  valuesEqual_symm_aux a b ha hb

/-- C2 at a nested bag and the same bag with reordered entries. -/
theorem valuesEqual_symm_witness :
    nestedValue.uniqueKeys = true ∧ nestedValueReordered.uniqueKeys = true ∧
    valuesEqual nestedValue nestedValueReordered = true ∧
    valuesEqual nestedValue nestedValueReordered = valuesEqual nestedValueReordered nestedValue :=
  ⟨by decide, by decide, by decide,
    valuesEqual_symm nestedValue nestedValueReordered (by decide) (by decide)⟩

/-- C3: `valuesEqual` is transitive: from `valuesEqual a b` and
`valuesEqual b c` follows `valuesEqual a c`. -/
theorem valuesEqual_trans (a b c : Value) (hab : valuesEqual a b = true)
    (hbc : valuesEqual b c = true) : valuesEqual a c = true :=
  valuesEqual_trans_aux a b c hab hbc

/-- C3 at a nested bag, its reordering and the bag again. -/
theorem valuesEqual_trans_witness :
    valuesEqual nestedValue nestedValueReordered = true ∧
    valuesEqual nestedValueReordered nestedValue = true ∧
    valuesEqual nestedValue nestedValue = true :=
  ⟨by decide, by decide,
    valuesEqual_trans nestedValue nestedValueReordered nestedValue (by decide) (by decide)⟩

/-- C4: `valuesEqual` is reflexive on the value domain: `valuesEqual a a` is
true for every value whose maps have distinct keys and that holds no NaN (the
null value, empty sequences, empty bags and nested structures included). -/
theorem valuesEqual_refl (a : Value) (hk : a.uniqueKeys = true) (hn : a.noNaN = true) :
    valuesEqual a a = true :=
  valuesEqual_refl_aux a hk hn

/-- C4 at a nested bag. -/
theorem valuesEqual_refl_witness :
    nestedValue.uniqueKeys = true ∧ nestedValue.noNaN = true ∧
    valuesEqual nestedValue nestedValue = true :=
  ⟨by decide, by decide, valuesEqual_refl nestedValue (by decide) (by decide)⟩

/-- C5: two bags (with distinct keys each) are equal under `valuesEqual` iff
they have the same key set and, at every key, their values are equal under
`valuesEqual`. -/
theorem valuesEqual_map_spec (a b : Bag) (ha : (a.map Prod.fst).Nodup)
    (hb : (b.map Prod.fst).Nodup) :
    valuesEqual (.map a) (.map b) = true ↔
      (∀ k, k ∈ a.map Prod.fst ↔ k ∈ b.map Prod.fst) ∧
      (∀ k va vb, a.lookup k = some va → b.lookup k = some vb → valuesEqual va vb = true) := by
  rw [valuesEqual_map, mapsEqual_iff]
  constructor
  · rintro ⟨hlen, hall⟩
    have hsub : ∀ j ∈ a.map Prod.fst, j ∈ b.map Prod.fst := by
      intro j hj
      obtain ⟨p, hp, rfl⟩ := List.mem_map.1 hj
      obtain ⟨w, hw, _⟩ := hall p.1 p.2 hp
      exact List.mem_map.2 ⟨(p.1, w), lookup_mem hw, rfl⟩
    refine ⟨fun k => ⟨hsub k, keys_subset_of_length_eq ha hlen hsub k⟩, ?_⟩
    intro k va vb hka hkb
    obtain ⟨w, hw, hvw⟩ := hall k va (lookup_mem hka)
    rw [hkb] at hw
    cases hw
    exact hvw
  · rintro ⟨hkeys, hvals⟩
    have hperm : List.Perm (a.map Prod.fst) (b.map Prod.fst) :=
      (List.perm_ext_iff_of_nodup ha hb).2 hkeys
    refine ⟨by simpa using hperm.length_eq, fun k v hkv => ?_⟩
    have hk : k ∈ b.map Prod.fst := (hkeys k).1 (List.mem_map.2 ⟨(k, v), hkv, rfl⟩)
    obtain ⟨w, hw, _⟩ := lookup_isSome_of_key hk
    exact ⟨w, hw, hvals k v w (lookup_of_mem ha hkv) hw⟩

/-- C5 at two bags with one key more on one side, and at the bags of the
equal-maps test. -/
theorem valuesEqual_map_spec_witness :
    (valuesEqual (.map [("key", .str "value")]) (.map [("key", .str "value")]) = true ↔
      (∀ k, k ∈ [("key", Value.str "value")].map Prod.fst ↔
          k ∈ [("key", Value.str "value")].map Prod.fst) ∧
      (∀ k va vb, [("key", Value.str "value")].lookup k = some va →
          [("key", Value.str "value")].lookup k = some vb → valuesEqual va vb = true)) ∧
    valuesEqual (.map [("key", .str "value")]) (.map [("key", .str "value")]) = true ∧
    valuesEqual (.map [("key", .str "v1")]) (.map [("key", .str "v2")]) = false ∧
    valuesEqual (.map [("a", .null), ("b", .null)]) (.map [("a", .null), ("c", .null)]) = false :=
  ⟨valuesEqual_map_spec [("key", .str "value")] [("key", .str "value")] (by decide) (by decide),
    by decide, by decide, by decide⟩

/-- C6: two generic sequences are equal under `valuesEqual` iff they have
the same length and, at every index, their elements are equal under
`valuesEqual`. -/
theorem valuesEqual_slice_spec (a b : List Value) :
    valuesEqual (.slice a) (.slice b) = true ↔
      a.length = b.length ∧
      ∀ i (ha : i < a.length) (hb : i < b.length), valuesEqual a[i] b[i] = true := by
  rw [valuesEqual_slice, slicesEqual_iff]

/-- C7: two absent values are equal, an absent value and a present one are
not (in either order), and an empty sequence equals an empty sequence and an
empty bag an empty bag. -/
theorem valuesEqual_null_spec :
    valuesEqual .null .null = true ∧
    (∀ v, v ≠ .null → valuesEqual .null v = false ∧ valuesEqual v .null = false) ∧
    valuesEqual (.slice []) (.slice []) = true ∧
    valuesEqual (.strSlice []) (.strSlice []) = true ∧
    valuesEqual (.map []) (.map []) = true := by
  refine ⟨rfl, ?_, by decide, by decide, by decide⟩
  intro v hv
  cases v <;> first | exact absurd rfl hv | exact ⟨rfl, rfl⟩

/-- C7 at the empty sequences and the empty bag: none equals the absent
value. -/
theorem valuesEqual_null_spec_witness :
    (valuesEqual .null (.slice []) = false ∧ valuesEqual (.slice []) .null = false) ∧
    (valuesEqual .null (.strSlice []) = false ∧ valuesEqual (.strSlice []) .null = false) ∧
    (valuesEqual .null (.map []) = false ∧ valuesEqual (.map []) .null = false) :=
  ⟨valuesEqual_null_spec.2.1 (.slice []) (fun h => Value.noConfusion h),
    valuesEqual_null_spec.2.1 (.strSlice []) (fun h => Value.noConfusion h),
    valuesEqual_null_spec.2.1 (.map []) (fun h => Value.noConfusion h)⟩

/-- C8, as the code has it: numeric equality under `valuesEqual` depends on
the representation.  An integer and the float64 of the same integer value are
not equal, in either order and for `int` and `int64` alike, and neither are
the same integer as `int` and as `int64`; numbers of one representation are
equal when they are the same number. -/
theorem valuesEqual_numeric_representation (n : Int) (f : Nat) (h : floatIntValue f = some n) :
    valuesEqual (.int n) (.float64 f) = false ∧ valuesEqual (.float64 f) (.int n) = false ∧
    valuesEqual (.int64 n) (.float64 f) = false ∧ valuesEqual (.float64 f) (.int64 n) = false ∧
    valuesEqual (.int n) (.int64 n) = false ∧ valuesEqual (.int64 n) (.int n) = false ∧
    valuesEqual (.int n) (.int n) = true ∧ valuesEqual (.int64 n) (.int64 n) = true ∧
    valuesEqual (.float64 f) (.float64 f) = true := by
  refine ⟨rfl, rfl, rfl, rfl, rfl, rfl, ?_, ?_, ?_⟩
  · simp [valuesEqual, deepEqual]
  · simp [valuesEqual, deepEqual]
  · simp [valuesEqual, deepEqual, floatEq_refl f (isNaN_of_floatIntValue h)]

/-- C8, as the code has it, at the float64 `5.0` (bits `0x4014000000000000`)
and the integer `5`. -/
theorem valuesEqual_numeric_representation_witness :
    floatIntValue 0x4014000000000000 = some 5 ∧
    valuesEqual (.int64 5) (.float64 0x4014000000000000) = false ∧
    valuesEqual (.float64 0x4014000000000000) (.float64 0x4014000000000000) = true :=
  ⟨by decide,
    (valuesEqual_numeric_representation 5 0x4014000000000000 (by decide)).2.2.1,
    (valuesEqual_numeric_representation 5 0x4014000000000000 (by decide)).2.2.2.2.2.2.2.2⟩

/-- C8 as stated fails: the integer `5` and the integer-valued float64 `5.0`
are not equal under `valuesEqual`, and neither are `int 5` and `int64 5`. -/
theorem valuesEqual_int_float_counterexample :
    floatIntValue 0x4014000000000000 = some 5 ∧
    valuesEqual (.int 5) (.float64 0x4014000000000000) = false ∧
    valuesEqual (.int 5) (.int64 5) = false :=
  ⟨by decide, by decide, by decide⟩

/-! ## Order-sensitive sequences and the top-level key rule -/

/-- C9: when the path resolves to string sequences `s` (live) and `t`
(declared), `compareAttribute` returns a drift, carrying both sequences, iff
`s` and `t` differ; so it does when `t` is a reordering of `s` other than `s`
and when the two differ in length or at some index. -/
theorem compareAttribute_strSlice (P : String) (A B : Option Bag) (s t : List String)
    (hA : getNestedValue A P = .strSlice s) (hB : getNestedValue B P = .strSlice t) :
    (s ≠ t ↔ compareAttribute P A B =
        some { Attribute := P, AWSValue := .strSlice s, TerraformValue := .strSlice t,
               Path := P }) ∧
    (s = t ↔ compareAttribute P A B = none) ∧
    (s.Perm t → s ≠ t → (compareAttribute P A B).isSome = true) ∧
    (s.length ≠ t.length → (compareAttribute P A B).isSome = true) ∧
    (∀ i (hs : i < s.length) (ht : i < t.length), s[i] ≠ t[i] →
        (compareAttribute P A B).isSome = true) := by
  have hv : valuesEqual (.strSlice s) (.strSlice t) = decide (s = t) := by
    rw [Bool.eq_iff_iff, valuesEqual_strSlice_left]
    simp [eq_comm]
  have key : ∀ {p : Prop}, (p → s ≠ t) → p → (compareAttribute P A B).isSome = true := by
    intro p hp h
    simp [compareAttribute, hA, hB, hv, hp h]
  by_cases hst : s = t
  · subst hst
    refine ⟨?_, ?_, fun _ h => absurd rfl h, fun h => absurd rfl h,
      fun i hs ht h => absurd rfl h⟩
    · simp [compareAttribute, hA, hB, hv]
    · simp [compareAttribute, hA, hB, hv]
  · refine ⟨?_, ?_, fun _ h => key id h, fun h => key (fun h2 h3 => h2 (by rw [h3])) h,
      fun i hs ht h => key (fun h2 h3 => h2 (by subst h3; rfl)) h⟩
    · simp [compareAttribute, hA, hB, hv, hst]
    · simp [compareAttribute, hA, hB, hv, hst]

/-- C9 at the security groups `sg-123, sg-456` against the same two groups in
the other order: a drift is returned. -/
theorem compareAttribute_strSlice_witness :
    getNestedValue (some liveGroups) "vpc_security_group_ids" =
      .strSlice ["sg-123", "sg-456"] ∧
    getNestedValue (some declaredGroups) "vpc_security_group_ids" =
      .strSlice ["sg-456", "sg-123"] ∧
    (compareAttribute "vpc_security_group_ids" (some liveGroups) (some declaredGroups)).isSome
      = true :=
  ⟨rfl, rfl,
    (compareAttribute_strSlice "vpc_security_group_ids" (some liveGroups) (some declaredGroups)
      ["sg-123", "sg-456"] ["sg-456", "sg-123"] rfl rfl).2.2.1
      (List.Perm.swap _ _ _) (by decide)⟩

/-- C10: for a non-nil bag, a path that is a top-level key resolves to the
value at that key, whatever the path contains and whatever a walk along its
segments would reach. -/
theorem getNestedValue_top_level_key (bag : Bag) (path : String) (v : Value)
    (h : bag.lookup path = some v) : getNestedValue (some bag) path = v := by
  simp [getNestedValue, h]

/-- C10 at a bag with the key `a.b` next to a bag `a` with a key `b`: the
path `a.b` resolves to the value at the top-level key, not to the nested
one that the walk reaches. -/
theorem getNestedValue_top_level_key_witness :
    dottedBag.lookup "a.b" = some (.str "direct") ∧
    walkKeys (splitPath "a.b") (.map dottedBag) = .str "nested" ∧
    getNestedValue (some dottedBag) "a.b" = .str "direct" :=
  ⟨rfl, rfl, getNestedValue_top_level_key dottedBag "a.b" (.str "direct") rfl⟩

/-! ## The walk of the resolver -/

theorem walkKeys_eq_foldlM : ∀ (keys : List String) (current : Value),
    walkKeys keys current = (keys.foldlM resolveStep current).getD .null
  | [], current => by simp [walkKeys]
  | key :: keys, current => by
    cases current with
    | map v =>
      cases h : v.lookup key with
      | none => simp [walkKeys, resolveStep, h]
      | some val => simp [walkKeys, resolveStep, h, walkKeys_eq_foldlM keys val]
    | _ => simp [walkKeys, resolveStep]

/-- C11: for a non-nil bag and a path that is no top-level key, the resolver
returns the result of walking the segments of `splitPath path` from the bag
as the specification words the walk (a step fails, and the result is absent,
unless the current value is a bag holding the segment); for the nil bag the
result is absent.  The resolver is a total function, so it never fails. -/
theorem getNestedValue_walk (bag : Bag) (path : String) (h : bag.lookup path = none) :
    getNestedValue (some bag) path = resolveSpec bag (splitPath path) ∧
    getNestedValue none path = .null := by
  refine ⟨?_, rfl⟩
  simp only [getNestedValue, h, resolveSpec]
  exact walkKeys_eq_foldlM _ _

/-- C11 at the bag of `TestGetNestedValue`: a nested path, a missing key and
a path through a value that is no bag. -/
theorem getNestedValue_walk_witness :
    (getNestedValue (some nestedTestBag) "nested.key" =
        resolveSpec nestedTestBag (splitPath "nested.key") ∧
      getNestedValue none "nested.key" = .null) ∧
    getNestedValue (some nestedTestBag) "nested.key" = .str "nested_value" ∧
    getNestedValue (some nestedTestBag) "non_existent" = .null ∧
    getNestedValue (some nestedTestBag) "simple.key" = .null :=
  ⟨getNestedValue_walk nestedTestBag "nested.key" rfl, rfl, rfl, rfl⟩

/-! ## The path splitter -/

/-- The loop of `splitPath`, finished as `splitPath` finishes it, against the
pieces of the library splitter: the non-empty pieces are kept, as strings. -/
theorem splitPathLoop_eq : ∀ (rest : List Char) (result : List String) (current : String),
    (if (splitPathLoop rest result current).2 != "" then
        (splitPathLoop rest result current).1 ++ [(splitPathLoop rest result current).2]
      else (splitPathLoop rest result current).1) =
    result ++ ((List.splitOnP.go (fun c => c == '.') rest current.data.reverse).filter
      (fun piece => !piece.isEmpty)).map String.mk
  | [], result, current => by
    obtain ⟨cs⟩ := current
    cases cs <;> simp [splitPathLoop, List.splitOnP.go, String.ext_iff]
  | char :: rest, result, current => by
    obtain ⟨cs⟩ := current
    by_cases hc : char = '.'
    · subst hc
      cases cs with
      | nil =>
        have ih := splitPathLoop_eq rest result ""
        simpa [splitPathLoop, List.splitOnP.go] using ih
      | cons c cs =>
        have ih := splitPathLoop_eq rest (result ++ [String.mk (c :: cs)]) ""
        have hne : (String.mk (c :: cs) != "") = true := by simp [String.ext_iff]
        simp only [splitPathLoop, hne, beq_self_eq_true, if_true]
        rw [ih]
        simp [List.splitOnP.go]
    · have ih := splitPathLoop_eq rest result (String.mk cs ++ String.singleton char)
      have hne : (char == '.') = false := by simpa using hc
      simp only [splitPathLoop, hne, Bool.false_eq_true, if_false]
      rw [ih]
      simp [List.splitOnP.go, hne, String.singleton]

theorem splitOnP_go_no_sep (p : Char → Bool) : ∀ (xs acc : List Char),
    (∀ x ∈ acc, p x = false) → ∀ piece ∈ List.splitOnP.go p xs acc, ∀ x ∈ piece, p x = false
  | [], acc, hacc => by
    intro piece hp x hx
    simp only [List.splitOnP.go, List.mem_singleton] at hp
    subst hp
    exact hacc x (List.mem_reverse.1 hx)
  | a :: t, acc, hacc => by
    intro piece hp x hx
    simp only [List.splitOnP.go] at hp
    cases hpa : p a
    · simp only [hpa, Bool.false_eq_true, if_false] at hp
      refine splitOnP_go_no_sep p t (a :: acc) ?_ piece hp x hx
      intro y hy
      rcases List.mem_cons.1 hy with h | h
      · exact h ▸ hpa
      · exact hacc y h
    · simp only [hpa, if_true] at hp
      rcases List.mem_cons.1 hp with h | h
      · subst h
        exact hacc x (List.mem_reverse.1 hx)
      · exact splitOnP_go_no_sep p t [] (fun _ hy => by cases hy) piece h x hx

theorem splitPath_eq_pieces (path : String) :
    splitPath path = ((List.splitOnP (fun c => c == '.') path.data).filter
      (fun piece => !piece.isEmpty)).map String.mk := by
  have h := splitPathLoop_eq path.toList [] ""
  simpa [splitPath, List.splitOnP] using h

theorem splitPathLoop_dots : ∀ (rest : List Char) (result : List String),
    (∀ c ∈ rest, c = '.') → splitPathLoop rest result "" = (result, "")
  | [], _, _ => rfl
  | char :: rest, result, h => by
    have hc : char = '.' := h char (List.mem_cons_self _ _)
    subst hc
    have ih := splitPathLoop_dots rest result (fun c hc => h c (List.mem_cons_of_mem _ hc))
    simpa [splitPathLoop] using ih

/-- C12: `splitPath path` is the path split at every `.` with the empty
pieces discarded, in order; no segment is empty, none contains a `.`, and
the empty path and the paths made of dots only have no segments. -/
theorem splitPath_spec (path : String) :
    splitPath path = splitPathSpec path ∧
    (∀ seg ∈ splitPath path, seg ≠ "" ∧ '.' ∉ seg.toList) ∧
    ((∀ c ∈ path.toList, c = '.') → splitPath path = []) := by
  refine ⟨?_, ?_, ?_⟩
  · rw [splitPath_eq_pieces, splitPathSpec, String.split_of_valid, List.filter_map]
    congr 1
    apply List.filter_congr
    intro piece _
    cases piece <;> simp [String.ext_iff]
  · intro seg hseg
    rw [splitPath_eq_pieces] at hseg
    obtain ⟨piece, hp, rfl⟩ := List.mem_map.1 hseg
    rw [List.mem_filter] at hp
    constructor
    · intro h
      have hd : piece = [] := congrArg String.data h
      simp [hd] at hp
    · intro hdot
      have := splitOnP_go_no_sep (fun c => c == '.') path.data [] (fun _ h => by cases h)
        piece hp.1 '.' hdot
      simp at this
  · intro h
    have hl : splitPathLoop path.data [] "" = ([], "") := splitPathLoop_dots path.toList [] h
    simp [splitPath, hl]

/-- C12 at the paths of `TestSplitPath`, at a path with leading, doubled and
trailing dots, and at a path of dots only. -/
theorem splitPath_spec_witness :
    splitPath "simple" = ["simple"] ∧ splitPath "nested.key" = ["nested", "key"] ∧
    splitPath "a.b.c" = ["a", "b", "c"] ∧ splitPath "" = [] ∧
    splitPath ".a..b." = ["a", "b"] ∧ splitPath "..." = [] :=
  ⟨by decide, by decide, by decide, by decide, by decide,
    (splitPath_spec "...").2.2 (by decide)⟩

/-! ## The drift detection engine -/

/-- The loop over the attributes appends the drifts of the attributes, in
order, and sets the flag when there is one. -/
theorem compareLoop_eq (awsConfig tfConfig : Option Bag) :
    ∀ (attrs : List String) (result : Result),
      compareLoop awsConfig tfConfig attrs result =
        { InstanceID := result.InstanceID,
          HasDrift := result.HasDrift ||
            !(attrs.filterMap (fun attr => compareAttribute attr awsConfig tfConfig)).isEmpty,
          Drifts := result.Drifts ++
            attrs.filterMap (fun attr => compareAttribute attr awsConfig tfConfig),
          Error := result.Error }
  | [], result => by simp [compareLoop]
  | attr :: rest, result => by
    cases h : compareAttribute attr awsConfig tfConfig with
    | none => simp [compareLoop, h, compareLoop_eq awsConfig tfConfig rest result]
    | some drift => simp [compareLoop, h, compareLoop_eq awsConfig tfConfig rest]

theorem detectSingleInstance_InstanceID (d : Detector) (instanceID : String) :
    (detectSingleInstance d instanceID).InstanceID = instanceID := by
  unfold detectSingleInstance
  rcases d.ec2Client instanceID with ⟨awsConfig, _ | err⟩
  · rcases d.tfParser instanceID with ⟨tfConfig, _ | err⟩
    · simp [compareLoop_eq]
    · rfl
  · rfl

theorem detectLoop_eq (d : Detector) : ∀ (instanceIDs : List String) (results : List Result),
    detectLoop d instanceIDs results = results ++ instanceIDs.map (detectSingleInstance d)
  | [], results => by simp [detectLoop]
  | instanceID :: rest, results => by
    simp [detectLoop, detectLoop_eq d rest]

/-- C13: `Detect` returns the nil error and one `Result` per identifier, in
the order of the identifiers: the results are as many as the identifiers,
the result at index `i` has the identifier at index `i` and is the single
result of `Detect` on that identifier alone. -/
theorem Detect_spec (d : Detector) (instanceIDs : List String) :
    (Detect d instanceIDs).2 = none ∧
    (Detect d instanceIDs).1.length = instanceIDs.length ∧
    ∀ i (hr : i < (Detect d instanceIDs).1.length) (hi : i < instanceIDs.length),
      (Detect d instanceIDs).1[i].InstanceID = instanceIDs[i] ∧
      Detect d [instanceIDs[i]] = ([(Detect d instanceIDs).1[i]], none) := by
  refine ⟨rfl, by simp [Detect, detectLoop_eq], ?_⟩
  intro i hr hi
  have hget : (Detect d instanceIDs).1[i] = detectSingleInstance d instanceIDs[i] := by
    simp [Detect, detectLoop_eq]
  rw [hget]
  exact ⟨detectSingleInstance_InstanceID d _, by simp [Detect, detectLoop]⟩

/-- C13 at a batch of three identifiers whose second fails at the live-state
provider: three results, and the third is the result of the third alone. -/
theorem Detect_spec_witness :
    (Detect testDetector testIDs).2 = none ∧
    (Detect testDetector testIDs).1.length = 3 ∧
    (Detect testDetector testIDs).1.map (fun r => r.InstanceID) = testIDs ∧
    (Detect testDetector testIDs).1.map (fun r => r.Error.isSome) = [false, true, false] ∧
    Detect testDetector ["i-same"] = ([detectSingleInstance testDetector "i-same"], none) :=
  ⟨(Detect_spec testDetector testIDs).1, (Detect_spec testDetector testIDs).2.1,
    by decide, by decide, rfl⟩

/-- C14: the `Error` of a result is set iff the live-state provider or the
declared-state provider returns an error for the identifier, and a result
with an error has no drifts and the flag unset. -/
theorem detectSingleInstance_error (d : Detector) (instanceID : String) :
    ((detectSingleInstance d instanceID).Error.isSome = true ↔
      (d.ec2Client instanceID).2.isSome = true ∨ (d.tfParser instanceID).2.isSome = true) ∧
    ((detectSingleInstance d instanceID).Error.isSome = true →
      (detectSingleInstance d instanceID).Drifts = [] ∧
      (detectSingleInstance d instanceID).HasDrift = false) := by
  unfold detectSingleInstance
  rcases d.ec2Client instanceID with ⟨awsConfig, _ | err⟩
  · rcases d.tfParser instanceID with ⟨tfConfig, _ | err⟩
    · simp [compareLoop_eq]
    · simp
  · simp

/-- C14 at an identifier that the live-state provider fails for and at one
that the declared-state provider fails for. -/
theorem detectSingleInstance_error_witness :
    (testEC2 "i-missing").2 = some "instance not found" ∧
    (detectSingleInstance testDetector "i-missing").Error =
      some "failed to get AWS instance: instance not found" ∧
    ((detectSingleInstance testDetector "i-missing").Drifts = [] ∧
      (detectSingleInstance testDetector "i-missing").HasDrift = false) ∧
    ((detectSingleInstance testDetector "i-gone").Drifts = [] ∧
      (detectSingleInstance testDetector "i-gone").HasDrift = false) ∧
    (detectSingleInstance testDetector "i-test").Error = none :=
  ⟨rfl, rfl, (detectSingleInstance_error testDetector "i-missing").2 rfl,
    (detectSingleInstance_error testDetector "i-gone").2 rfl, rfl⟩

theorem detectSingleInstance_hasDrift (d : Detector) (instanceID : String) :
    (detectSingleInstance d instanceID).HasDrift = true ↔
      (detectSingleInstance d instanceID).Drifts ≠ [] := by
  unfold detectSingleInstance
  rcases d.ec2Client instanceID with ⟨awsConfig, _ | err⟩
  · rcases d.tfParser instanceID with ⟨tfConfig, _ | err⟩
    · simp [compareLoop_eq, List.isEmpty_iff]
    · simp
  · simp

theorem completeUnit_length (d : Detector) (instanceIDs : List String) (results : List Result)
    (idx : Nat) : (completeUnit d instanceIDs results idx).length = results.length := by
  unfold completeUnit
  cases instanceIDs[idx]? <;> simp

theorem completeUnit_getElem? (d : Detector) (instanceIDs : List String)
    (results : List Result) (hlen : results.length = instanceIDs.length) (idx i : Nat) :
    (completeUnit d instanceIDs results idx)[i]? =
      if i = idx then instanceIDs[i]?.map (detectSingleInstance d) else results[i]? := by
  unfold completeUnit
  by_cases hi : i = idx
  · subst hi
    cases h : instanceIDs[i]? with
    | none =>
      have hge : instanceIDs.length ≤ i := List.getElem?_eq_none_iff.1 h
      simp [List.getElem?_eq_none_iff, hlen, hge]
    | some id =>
      have hlt : i < instanceIDs.length := (List.getElem?_eq_some_iff.1 h).1
      simp [List.getElem?_set, hlen, hlt]
  · have hne : ¬ idx = i := fun h => hi h.symm
    cases h : instanceIDs[idx]? with
    | none => simp [hi]
    | some id => simp [List.getElem?_set, hi, hne]

/-- The slots after the units of `completion` have completed: the slot of a
completed unit holds the result of its identifier, the others are untouched. -/
theorem completeUnits_getElem? (d : Detector) (instanceIDs : List String) :
    ∀ (completion : List Nat) (results : List Result),
      results.length = instanceIDs.length → ∀ i,
      (completion.foldl (completeUnit d instanceIDs) results)[i]? =
        if i ∈ completion then instanceIDs[i]?.map (detectSingleInstance d) else results[i]?
  | [], results, _, i => by simp
  | idx :: rest, results, hlen, i => by
    have hlen2 : (completeUnit d instanceIDs results idx).length = instanceIDs.length := by
      rw [completeUnit_length, hlen]
    rw [List.foldl_cons, completeUnits_getElem? d instanceIDs rest _ hlen2 i,
      completeUnit_getElem? d instanceIDs results hlen idx i]
    by_cases h1 : i ∈ rest
    · simp [h1]
    · by_cases h2 : i = idx
      · simp [h1, h2]
      · simp [h1, h2]

theorem DetectConcurrent_getElem? (d : Detector) (instanceIDs : List String)
    (completion : List Nat) (i : Nat) :
    (DetectConcurrent d instanceIDs completion).1[i]? =
      if i ∈ completion then instanceIDs[i]?.map (detectSingleInstance d)
      else (List.replicate instanceIDs.length zeroResult)[i]? := by
  unfold DetectConcurrent
  exact completeUnits_getElem? d instanceIDs completion _ (by simp) i

theorem compareAttribute_Path {attr : String} {awsConfig tfConfig : Option Bag}
    {drift : AttributeDrift} (h : compareAttribute attr awsConfig tfConfig = some drift) :
    drift.Path = attr := by
  unfold compareAttribute at h
  cases hv : valuesEqual (getNestedValue awsConfig attr) (getNestedValue tfConfig attr)
  · simp only [hv, Bool.not_false, if_true, Option.some.injEq] at h
    subst h
    rfl
  · simp [hv] at h

theorem drift_paths_sublist (awsConfig tfConfig : Option Bag) : ∀ (attrs : List String),
    ((attrs.filterMap (fun attr => compareAttribute attr awsConfig tfConfig)).map
      (fun drift => drift.Path)).Sublist attrs
  | [] => by simp
  | attr :: rest => by
    have ih := drift_paths_sublist awsConfig tfConfig rest
    cases h : compareAttribute attr awsConfig tfConfig with
    | none =>
      simp only [List.filterMap_cons, h]
      exact ih.trans (List.sublist_cons_self _ _)
    | some drift =>
      simp only [List.filterMap_cons, h, List.map_cons, compareAttribute_Path h]
      exact ih.cons₂ _

/-- C15: every result of `Detect`, and every result of `DetectConcurrent`
for any order of completion, has `HasDrift` true iff its `Drifts` are not
empty. -/
theorem HasDrift_iff_Drifts (d : Detector) (instanceIDs : List String) (completion : List Nat) :
    (∀ r ∈ (Detect d instanceIDs).1, (r.HasDrift = true ↔ r.Drifts ≠ [])) ∧
    (∀ r ∈ (DetectConcurrent d instanceIDs completion).1,
      (r.HasDrift = true ↔ r.Drifts ≠ [])) := by
  constructor
  · intro r hr
    simp only [Detect, detectLoop_eq, List.nil_append, List.mem_map] at hr
    obtain ⟨id, _, rfl⟩ := hr
    exact detectSingleInstance_hasDrift d id
  · intro r hr
    obtain ⟨i, hi⟩ := List.getElem?_of_mem hr
    rw [DetectConcurrent_getElem?] at hi
    by_cases hc : i ∈ completion
    · simp only [hc, if_true, Option.map_eq_some'] at hi
      obtain ⟨id, _, rfl⟩ := hi
      exact detectSingleInstance_hasDrift d id
    · simp only [hc, if_false, List.getElem?_replicate] at hi
      have hz : zeroResult = r := by
        by_cases hlt : i < instanceIDs.length
        · simpa [hlt] using hi
        · simp [hlt] at hi
      subst hz
      simp [zeroResult]

/-- C15 at the batch of three identifiers: the flags of the results and the
numbers of their drifts. -/
theorem HasDrift_iff_Drifts_witness :
    (Detect testDetector testIDs).1.map (fun r => (r.HasDrift, r.Drifts.length)) =
      [(true, 2), (false, 0), (false, 0)] ∧
    ((detectSingleInstance testDetector "i-test").HasDrift = true ↔
      (detectSingleInstance testDetector "i-test").Drifts ≠ []) :=
  ⟨by decide, (HasDrift_iff_Drifts testDetector testIDs [2, 0, 1]).1 _ (by
    simp [Detect, detectLoop, testIDs])⟩

/-- C16: when both providers succeed, the `Drifts` of the result are the
configured attributes, in order, mapped through `compareAttribute` with the
attributes without drift left out; the paths of the drifts are a
subsequence of the attributes, and the drifts are no more than they. -/
theorem detectSingleInstance_drifts (d : Detector) (instanceID : String)
    (haws : (d.ec2Client instanceID).2 = none) (htf : (d.tfParser instanceID).2 = none) :
    (detectSingleInstance d instanceID).Drifts =
      d.attributes.filterMap (fun attr =>
        compareAttribute attr (d.ec2Client instanceID).1 (d.tfParser instanceID).1) ∧
    ((detectSingleInstance d instanceID).Drifts.map (fun drift => drift.Path)).Sublist
      d.attributes ∧
    (detectSingleInstance d instanceID).Drifts.length ≤ d.attributes.length := by
  have hd : (detectSingleInstance d instanceID).Drifts =
      d.attributes.filterMap (fun attr =>
        compareAttribute attr (d.ec2Client instanceID).1 (d.tfParser instanceID).1) := by
    unfold detectSingleInstance
    rcases hc : d.ec2Client instanceID with ⟨awsConfig, _ | err⟩
    · rcases ht : d.tfParser instanceID with ⟨tfConfig, _ | err⟩
      · simp [compareLoop_eq]
      · simp [ht] at htf
    · simp [hc] at haws
  refine ⟨hd, ?_, ?_⟩
  · rw [hd]
    exact drift_paths_sublist _ _ _
  · rw [hd]
    exact List.length_filterMap_le _ _

/-- C16 at the drifting instance of the tests: both attributes drift, in the
configured order. -/
theorem detectSingleInstance_drifts_witness :
    (testDetector.ec2Client "i-test").2 = none ∧ (testDetector.tfParser "i-test").2 = none ∧
    (detectSingleInstance testDetector "i-test").Drifts.map (fun drift => drift.Path) =
      ["instance_type", "ami"] ∧
    (detectSingleInstance testDetector "i-test").Drifts.length ≤ testDetector.attributes.length :=
  ⟨rfl, rfl, by decide, (detectSingleInstance_drifts testDetector "i-test" rfl rfl).2.2⟩

/-- C17: for every order in which the units of work complete (every
permutation of the indices), `DetectConcurrent` returns what `Detect`
returns: the same results in the order of the identifiers, and the nil
error. -/
theorem DetectConcurrent_eq_Detect (d : Detector) (instanceIDs : List String)
    (completion : List Nat) (h : completion.Perm (List.range instanceIDs.length)) :
    DetectConcurrent d instanceIDs completion = Detect d instanceIDs := by
  have h1 : (DetectConcurrent d instanceIDs completion).1 = (Detect d instanceIDs).1 := by
    apply List.ext_getElem?
    intro i
    rw [DetectConcurrent_getElem?]
    have hmem : i ∈ completion ↔ i < instanceIDs.length := by
      rw [h.mem_iff, List.mem_range]
    by_cases hi : i < instanceIDs.length
    · simp [hmem.2 hi, Detect, detectLoop_eq]
    · have hc : ¬ i ∈ completion := fun hc => hi (hmem.1 hc)
      have hge : instanceIDs.length ≤ i := Nat.le_of_not_lt hi
      have hn1 : (List.replicate instanceIDs.length zeroResult)[i]? = none :=
        List.getElem?_eq_none_iff.2 (by simpa using hge)
      have hn2 : instanceIDs[i]? = none := List.getElem?_eq_none_iff.2 hge
      simp [hc, Detect, detectLoop_eq, hn1, hn2]
  exact Prod.ext h1 rfl

/-- C17 at the batch of three identifiers, with the third unit completing
first and the first unit second. -/
theorem DetectConcurrent_eq_Detect_witness :
    List.Perm [2, 0, 1] (List.range testIDs.length) ∧
    DetectConcurrent testDetector testIDs [2, 0, 1] = Detect testDetector testIDs :=
  ⟨by decide, DetectConcurrent_eq_Detect testDetector testIDs [2, 0, 1] (by decide)⟩

/-! ## Attributes missing on one side, and the two sequence representations -/

theorem valuesEqual_null_right (v : Value) (hv : v ≠ .null) : valuesEqual v .null = false := by
  cases v <;> first | exact absurd rfl hv | rfl

theorem valuesEqual_null_left_false (v : Value) (hv : v ≠ .null) :
    valuesEqual .null v = false := by
  cases v <;> first | exact absurd rfl hv | rfl

/-- C18: when the path resolves to a present value `v` in one bag and to
the absent value in the other, `compareAttribute` returns a drift, with `v`
on the resolving side and the absent value on the other. -/
theorem compareAttribute_one_sided (P : String) (A B : Option Bag) (v : Value)
    (hv : v ≠ .null) :
    (getNestedValue A P = v → getNestedValue B P = .null →
      compareAttribute P A B =
        some { Attribute := P, AWSValue := v, TerraformValue := .null, Path := P }) ∧
    (getNestedValue A P = .null → getNestedValue B P = v →
      compareAttribute P A B =
        some { Attribute := P, AWSValue := .null, TerraformValue := v, Path := P }) := by
  constructor
  · intro hA hB
    simp [compareAttribute, hA, hB, valuesEqual_null_right v hv]
  · intro hA hB
    simp [compareAttribute, hA, hB, valuesEqual_null_left_false v hv]

/-- C18 at the drifting instance of the tests: `ami` is declared and missing
from the live state. -/
theorem compareAttribute_one_sided_witness :
    compareAttribute "ami" (testEC2 "i-test").1 (testTF "i-test").1 =
      some { Attribute := "ami", AWSValue := .null, TerraformValue := .str "ami-12345",
             Path := "ami" } :=
  (compareAttribute_one_sided "ami" (testEC2 "i-test").1 (testTF "i-test").1 (.str "ami-12345")
    (fun h => Value.noConfusion h)).2 rfl rfl

theorem convertLoop_eq : ∀ (v : List Value) (result : List String),
    convertLoop v result = result ++ v.filterMap asString
  | [], result => by simp [convertLoop]
  | item :: rest, result => by
    cases item <;> simp [convertLoop, asString, convertLoop_eq rest]

theorem filterMap_asString_map_str : ∀ (xs : List String),
    (xs.map Value.str).filterMap asString = xs
  | [] => rfl
  | x :: xs => by simp [asString, filterMap_asString_map_str xs]

theorem filterMap_asString_length : ∀ (v : List Value),
    (v.filterMap asString).length ≤ v.length ∧
    ((v.filterMap asString).length = v.length ↔ ∀ x ∈ v, ∃ s, x = .str s)
  | [] => by simp
  | item :: rest => by
    have ih := filterMap_asString_length rest
    cases item with
    | str s =>
      simp only [List.filterMap_cons, asString, List.length_cons, List.mem_cons, forall_eq_or_imp]
      refine ⟨by omega, ?_⟩
      constructor
      · intro h
        exact ⟨⟨s, rfl⟩, ih.2.1 (by omega)⟩
      · intro h
        have := ih.2.2 h.2
        omega
    | _ =>
      simp only [List.filterMap_cons, asString, List.length_cons, List.mem_cons, forall_eq_or_imp]
      refine ⟨by omega, ?_⟩
      constructor
      · intro h
        omega
      · intro h
        obtain ⟨s, hs⟩ := h.1
        cases hs

/-- C19, as the code has it: a generic sequence and a string sequence are
never equal under `valuesEqual`, in either order, also when they hold the
same strings in the same order; the string sequence that
`convertToStringSlice` makes of the generic sequence is equal to it. -/
theorem valuesEqual_slice_strSlice (xs : List String) :
    valuesEqual (.slice (xs.map Value.str)) (.strSlice xs) = false ∧
    valuesEqual (.strSlice xs) (.slice (xs.map Value.str)) = false ∧
    valuesEqual (.strSlice (convertToStringSlice (.slice (xs.map Value.str)))) (.strSlice xs) =
      true := by
  refine ⟨rfl, rfl, ?_⟩
  have hconv : convertToStringSlice (.slice (xs.map Value.str)) = xs := by
    show convertLoop (xs.map Value.str) [] = xs
    rw [convertLoop_eq, filterMap_asString_map_str, List.nil_append]
  rw [hconv]
  simp [valuesEqual, stringSlicesEqual_iff]

/-- C19 as stated fails: the generic sequence and the string sequence that
both hold `sg-123` are not equal under `valuesEqual`, and neither are the
two empty sequences. -/
theorem valuesEqual_slice_strSlice_counterexample :
    valuesEqual (.slice [.str "sg-123"]) (.strSlice ["sg-123"]) = false ∧
    valuesEqual (.slice []) (.strSlice []) = false :=
  ⟨by decide, by decide⟩

/-! ## Normalisation to a string sequence -/

/-- C20: `convertToStringSlice` returns a string sequence unchanged, makes
`[s]` of a single string `s`, keeps of a generic sequence exactly its string
elements in their order (so the result is no longer than the sequence, and
as long iff every element is a string), and makes the empty sequence of any
other value; converting its result again changes nothing. -/
theorem convertToStringSlice_spec :
    (∀ v, convertToStringSlice (.strSlice v) = v) ∧
    (∀ s, convertToStringSlice (.str s) = [s]) ∧
    (∀ v, convertToStringSlice (.slice v) = v.filterMap asString ∧
      ((convertToStringSlice (.slice v)).map Value.str).Sublist v ∧
      (convertToStringSlice (.slice v)).length ≤ v.length ∧
      ((convertToStringSlice (.slice v)).length = v.length ↔ ∀ x ∈ v, ∃ s, x = .str s)) ∧
    (convertToStringSlice .null = [] ∧ (∀ n, convertToStringSlice (.int n) = []) ∧
      (∀ n, convertToStringSlice (.int64 n) = []) ∧
      (∀ f, convertToStringSlice (.float64 f) = []) ∧
      (∀ b, convertToStringSlice (.bool b) = []) ∧
      (∀ kvs, convertToStringSlice (.map kvs) = [])) ∧
    (∀ x, convertToStringSlice (.strSlice (convertToStringSlice x)) =
      convertToStringSlice x) := by
  refine ⟨fun _ => rfl, fun _ => rfl, ?_,
    ⟨rfl, fun _ => rfl, fun _ => rfl, fun _ => rfl, fun _ => rfl, fun _ => rfl⟩, fun _ => rfl⟩
  intro v
  have hc : convertToStringSlice (.slice v) = v.filterMap asString := by
    simp [convertToStringSlice, convertLoop_eq]
  refine ⟨hc, ?_, ?_, ?_⟩
  · rw [hc]
    clear hc
    induction v with
    | nil => simp
    | cons item rest ih =>
      cases item with
      | str s =>
        simp only [List.filterMap_cons, asString, List.map_cons]
        exact ih.cons₂ _
      | _ =>
        simp only [List.filterMap_cons, asString]
        exact ih.trans (List.sublist_cons_self _ _)
  · rw [hc]
    exact (filterMap_asString_length v).1
  · rw [hc]
    exact (filterMap_asString_length v).2

/-- C20 at a generic sequence with two strings around a number, at a single
string and at a bag. -/
theorem convertToStringSlice_spec_witness :
    convertToStringSlice (.slice [.str "sg-1", .int 7, .str "sg-2"]) = ["sg-1", "sg-2"] ∧
    convertToStringSlice (.str "sg-1") = ["sg-1"] ∧
    convertToStringSlice (.map [("a", .str "b")]) = [] ∧
    convertToStringSlice
        (.strSlice (convertToStringSlice (.slice [.str "sg-1", .int 7, .str "sg-2"]))) =
      convertToStringSlice (.slice [.str "sg-1", .int 7, .str "sg-2"]) :=
  ⟨by decide, by decide, by decide, convertToStringSlice_spec.2.2.2.2 _⟩

/-! ## Paths without segments, and keys that hold the absent value -/

theorem splitPath_dots (path : String) (h : ∀ c ∈ path.toList, c = '.') :
    splitPath path = [] := by
  have hl : splitPathLoop path.data [] "" = ([], "") := splitPathLoop_dots path.toList [] h
  simp [splitPath, hl]

theorem splitPath_single (k : String) (hne : k ≠ "") (hdot : '.' ∉ k.toList) :
    splitPath k = [k] := by
  have hsingle : List.splitOnP (fun c => c == '.') k.data = [k.data] := by
    apply List.splitOnP_eq_single
    intro x hx hp
    have hx2 : x = '.' := by simpa using hp
    exact hdot (hx2 ▸ hx)
  have hdata : k.data ≠ [] := fun h => hne (String.ext h)
  rw [splitPath_eq_pieces, hsingle]
  cases hk : k.data with
  | nil => exact absurd hk hdata
  | cons c cs =>
    have : k = String.mk (c :: cs) := String.ext hk
    simp [this]

/-- C22: for a non-nil bag without a top-level key equal to the path, the
empty path, and every path of dots only, resolves to the whole bag; so
`compareAttribute` on such a path returns a drift, of the two whole bags,
iff the two bags are not equal under `valuesEqual`. -/
theorem getNestedValue_no_segments (A B : Bag) (path : String)
    (hdots : ∀ c ∈ path.toList, c = '.') (hA : A.lookup path = none)
    (hB : B.lookup path = none) :
    getNestedValue (some A) path = .map A ∧
    ((compareAttribute path (some A) (some B)).isSome = true ↔
      valuesEqual (.map A) (.map B) = false) ∧
    (valuesEqual (.map A) (.map B) = false →
      compareAttribute path (some A) (some B) =
        some { Attribute := path, AWSValue := .map A, TerraformValue := .map B,
               Path := path }) := by
  have hgA : getNestedValue (some A) path = .map A := by
    simp [getNestedValue, hA, splitPath_dots path hdots, walkKeys]
  have hgB : getNestedValue (some B) path = .map B := by
    simp [getNestedValue, hB, splitPath_dots path hdots, walkKeys]
  refine ⟨hgA, ?_, ?_⟩
  · cases hv : valuesEqual (.map A) (.map B) <;> simp [compareAttribute, hgA, hgB, hv]
  · intro hv
    simp [compareAttribute, hgA, hgB, hv]

/-- C22 at the empty path and at the path `..`, on the bags of the tags
scenario: the whole bags are compared, and they differ. -/
theorem getNestedValue_no_segments_witness :
    (getNestedValue (some liveTags) "" = .map liveTags ∧
      ((compareAttribute "" (some liveTags) (some declaredTags)).isSome = true ↔
        valuesEqual (.map liveTags) (.map declaredTags) = false) ∧
      (valuesEqual (.map liveTags) (.map declaredTags) = false →
        compareAttribute "" (some liveTags) (some declaredTags) =
          some { Attribute := "", AWSValue := .map liveTags,
                 TerraformValue := .map declaredTags, Path := "" })) ∧
    getNestedValue (some liveTags) ".." = .map liveTags ∧
    (compareAttribute "" (some liveTags) (some declaredTags)).isSome = true ∧
    (compareAttribute "" (some liveTags) (some liveTags)).isSome = false :=
  ⟨getNestedValue_no_segments liveTags declaredTags "" (by decide) rfl rfl,
    (getNestedValue_no_segments liveTags declaredTags ".." (by decide) rfl rfl).1,
    by decide, by decide⟩

/-- C23, as the code has it: for a non-empty key without a dot, a bag that
holds the absent value at the key and a bag without the key show no drift,
whichever of the two is the live one. -/
theorem compareAttribute_null_or_missing (k : String) (A B : Bag) (hne : k ≠ "")
    (hdot : '.' ∉ k.toList) (hA : A.lookup k = some .null) (hB : B.lookup k = none) :
    compareAttribute k (some A) (some B) = none ∧
    compareAttribute k (some B) (some A) = none := by
  have hgA : getNestedValue (some A) k = .null := by
    simp [getNestedValue, hA]
  have hgB : getNestedValue (some B) k = .null := by
    simp [getNestedValue, hB, splitPath_single k hne hdot, walkKeys]
  constructor <;> simp [compareAttribute, hgA, hgB, valuesEqual]

/-- C23, as the code has it, at the key `ami`, absent in one bag and missing
from the other. -/
theorem compareAttribute_null_or_missing_witness :
    compareAttribute "ami" (some [("ami", .null)]) (some [("instance_type", .str "t3.large")])
      = none ∧
    compareAttribute "ami" (some [("instance_type", .str "t3.large")]) (some [("ami", .null)])
      = none :=
  compareAttribute_null_or_missing "ami" [("ami", .null)] [("instance_type", .str "t3.large")]
    (by decide) (by decide) rfl rfl

/-- C23 as stated fails at the empty key, which has no dot: a bag holding
the absent value at the key `""` against a bag without that key, here the
empty bag, gives a drift, of the absent value against the whole second bag. -/
theorem compareAttribute_empty_key_counterexample :
    List.lookup "" [("", Value.null)] = some .null ∧
    List.lookup "" ([] : Bag) = none ∧
    compareAttribute "" (some [("", .null)]) (some []) =
      some { Attribute := "", AWSValue := .null, TerraformValue := .map [], Path := "" } :=
  ⟨rfl, rfl, rfl⟩

/-! ## The summaries of the reporters -/

theorem jsonSummaryLoop_eq : ∀ (results : List Result) (summary : Summary),
    jsonSummaryLoop results summary =
      { Total := summary.Total + results.length,
        WithDrift := summary.WithDrift +
          results.countP (fun r => !r.Error.isSome && r.HasDrift),
        WithErrors := summary.WithErrors + results.countP (fun r => r.Error.isSome),
        InSync := summary.InSync +
          results.countP (fun r => !r.Error.isSome && !r.HasDrift) }
  | [], summary => by simp [jsonSummaryLoop]
  | ⟨id, hasDrift, drifts, error⟩ :: rest, summary => by
    cases error <;> cases hasDrift <;>
      simp [jsonSummaryLoop, jsonSummaryLoop_eq rest, List.countP_cons] <;> omega

theorem consoleCountLoop_eq : ∀ (results : List Result) (counts : Nat × Nat),
    consoleCountLoop results counts =
      (counts.1 + results.countP (fun r => !r.Error.isSome && r.HasDrift),
        counts.2 + results.countP (fun r => r.Error.isSome))
  | [], counts => by simp [consoleCountLoop]
  | ⟨id, hasDrift, drifts, error⟩ :: rest, (totalDrift, totalErrors) => by
    cases error <;> cases hasDrift <;>
      simp [consoleCountLoop, consoleCountLoop_eq rest, List.countP_cons] <;> omega

theorem countP_three_way : ∀ (results : List Result),
    results.countP (fun r => r.Error.isSome) +
      results.countP (fun r => !r.Error.isSome && r.HasDrift) +
      results.countP (fun r => !r.Error.isSome && !r.HasDrift) = results.length
  | [] => rfl
  | ⟨id, hasDrift, drifts, error⟩ :: rest => by
    have ih := countP_three_way rest
    cases error <;> cases hasDrift <;> simp [List.countP_cons] at ih ⊢ <;> omega

/-- C21: the reporters put every result into exactly one of three classes,
error (`Error` set), drift (no error and `HasDrift`) and in sync (neither).
The JSON summary counts the three classes, its total is the number of
results and the three counts add up to it, and the numbers of the console
summary (drift, errors, and the rest as in sync) are those of the JSON
summary. -/
theorem reporter_summaries (results : List Result) :
    (∀ r : Result, (r.Error.isSome).toNat + (!r.Error.isSome && r.HasDrift).toNat +
      (!r.Error.isSome && !r.HasDrift).toNat = 1) ∧
    (jsonSummary results).Total = results.length ∧
    (jsonSummary results).WithErrors = results.countP (fun r => r.Error.isSome) ∧
    (jsonSummary results).WithDrift =
      results.countP (fun r => !r.Error.isSome && r.HasDrift) ∧
    (jsonSummary results).InSync =
      results.countP (fun r => !r.Error.isSome && !r.HasDrift) ∧
    (jsonSummary results).WithErrors + (jsonSummary results).WithDrift +
      (jsonSummary results).InSync = (jsonSummary results).Total ∧
    consoleSummary results =
      (((jsonSummary results).Total : Int), ((jsonSummary results).WithDrift : Int),
        ((jsonSummary results).WithErrors : Int), ((jsonSummary results).InSync : Int)) := by
  have h3 := countP_three_way results
  refine ⟨?_, by simp [jsonSummary, jsonSummaryLoop_eq], by simp [jsonSummary, jsonSummaryLoop_eq],
    by simp [jsonSummary, jsonSummaryLoop_eq], by simp [jsonSummary, jsonSummaryLoop_eq], ?_, ?_⟩
  · rintro ⟨id, hasDrift, drifts, error⟩
    cases error <;> cases hasDrift <;> rfl
  · simp only [jsonSummary, jsonSummaryLoop_eq, Nat.zero_add]
    exact h3
  · simp only [consoleSummary, consoleCountLoop_eq, jsonSummary, jsonSummaryLoop_eq,
      Nat.zero_add]
    refine Prod.ext rfl (Prod.ext rfl (Prod.ext rfl ?_))
    simp only
    omega

/-- C21 at the results of the batch of three identifiers, one with drift,
one with an error and one in sync. -/
theorem reporter_summaries_witness :
    (jsonSummary (Detect testDetector testIDs).1).Total = 3 ∧
    (jsonSummary (Detect testDetector testIDs).1).WithDrift = 1 ∧
    (jsonSummary (Detect testDetector testIDs).1).WithErrors = 1 ∧
    (jsonSummary (Detect testDetector testIDs).1).InSync = 1 ∧
    consoleSummary (Detect testDetector testIDs).1 = (3, 1, 1, 1) ∧
    (jsonSummary (Detect testDetector testIDs).1).WithErrors +
      (jsonSummary (Detect testDetector testIDs).1).WithDrift +
      (jsonSummary (Detect testDetector testIDs).1).InSync =
        (jsonSummary (Detect testDetector testIDs).1).Total :=
  ⟨by decide, by decide, by decide, by decide, by decide,
    (reporter_summaries (Detect testDetector testIDs).1).2.2.2.2.2.1⟩

/-! ## The parser of the Terraform state -/

theorem lookup_append_ne {k key : String} (val : Value) (hk : k ≠ key) :
    ∀ (m : Bag), (m ++ [(key, val)]).lookup k = m.lookup k
  | [] => by
    have hne : (k == key) = false := by simpa using hk
    simp [List.lookup_cons, hne]
  | (j, w) :: m => by
    cases hj : k == j
    · simp only [List.cons_append, List.lookup_cons, hj]
      exact lookup_append_ne val hk m
    · simp [List.lookup_cons, hj]

theorem lookup_replace_ne {k key : String} (val : Value) (hk : k ≠ key) :
    ∀ (m : Bag),
      (m.map (fun kv => if kv.1 == key then (kv.1, val) else kv)).lookup k = m.lookup k
  | [] => rfl
  | (j, w) :: m => by
    have ih := lookup_replace_ne val hk m
    simp only [List.map_cons]
    by_cases hj : j = key
    · subst hj
      have hne : (k == j) = false := by simpa using hk
      simp only [beq_self_eq_true, if_true, List.lookup_cons, hne]
      exact ih
    · have hne : (j == key) = false := by simpa using hj
      simp only [hne, Bool.false_eq_true, if_false, List.lookup_cons]
      rw [ih]

theorem lookup_mapSet_ne {k key : String} (m : Bag) (val : Value) (hk : k ≠ key) :
    (mapSet m key val).lookup k = m.lookup k := by
  unfold mapSet
  split
  · exact lookup_replace_ne val hk m
  · exact lookup_append_ne val hk m

theorem lookup_map_value (g : Value → Value) (k : String) :
    ∀ (m : Bag), (m.map (fun kv => (kv.1, g kv.2))).lookup k = (m.lookup k).map g
  | [] => rfl
  | (j, w) :: m => by
    cases hkj : k == j <;> simp [List.lookup_cons, hkj, lookup_map_value g k m]

theorem normalizeNumber_eq_str (conv : Nat → Option Int) (v : Value) (s : String) :
    normalizeNumber conv v = .str s ↔ v = .str s := by
  cases v with
  | float64 f => cases h : conv f <;> simp [normalizeNumber, h]
  | _ => simp [normalizeNumber]

/-- Normalisation keeps the `id` attribute when it is a string, and makes
no string of anything else. -/
theorem lookup_id_normalizeAttributes (conv : Nat → Option Int) (attrs : Bag) (s : String) :
    (normalizeAttributes conv attrs).lookup "id" = some (.str s) ↔
      attrs.lookup "id" = some (.str s) := by
  have h1 : ∀ (m : Bag) (val : Value),
      (mapSet m "vpc_security_group_ids" val).lookup "id" = m.lookup "id" :=
    fun m val => lookup_mapSet_ne m val (by decide)
  have h2 : ∀ (m : Bag) (val : Value), (mapSet m "tags" val).lookup "id" = m.lookup "id" :=
    fun m val => lookup_mapSet_ne m val (by decide)
  have hpre : ∀ (m : Bag), (m.map (fun kv => (kv.1, normalizeNumber conv kv.2))).lookup "id" =
      some (.str s) ↔ m.lookup "id" = some (.str s) := by
    intro m
    rw [lookup_map_value]
    cases m.lookup "id" with
    | none => simp
    | some v => simp [normalizeNumber_eq_str]
  unfold normalizeAttributes
  simp only
  rw [hpre]
  split <;> split <;> simp only [h1, h2]

theorem asString_mapIndex (m : Bag) (key s : String) :
    asString (mapIndex m key) = some s ↔ m.lookup key = some (.str s) := by
  unfold mapIndex
  cases h : m.lookup key with
  | none => simp [asString]
  | some v => cases v <;> simp [asString]

theorem findInInstances_some (conv : Nat → Option Int) (instanceID : String) :
    ∀ (insts : List ResourceInstance) (attrs : Bag),
      findInInstances conv instanceID insts = some attrs →
      ∃ inst ∈ insts, inst.Attributes.lookup "id" = some (.str instanceID) ∧
        attrs = normalizeAttributes conv inst.Attributes
  | [], attrs, h => by simp [findInInstances] at h
  | inst :: rest, attrs, h => by
    unfold findInInstances at h
    cases hid : asString (mapIndex inst.Attributes "id") with
    | none =>
      simp only [hid] at h
      obtain ⟨i, hi, hl, ha⟩ := findInInstances_some conv instanceID rest attrs h
      exact ⟨i, List.mem_cons_of_mem _ hi, hl, ha⟩
    | some id =>
      simp only [hid] at h
      by_cases heq : id = instanceID
      · subst heq
        simp only [beq_self_eq_true, if_true, Option.some.injEq] at h
        exact ⟨inst, List.mem_cons_self _ _, (asString_mapIndex _ _ _).1 hid, h.symm⟩
      · have hne : (id == instanceID) = false := by simpa using heq
        simp only [hne, Bool.false_eq_true, if_false] at h
        obtain ⟨i, hi, hl, ha⟩ := findInInstances_some conv instanceID rest attrs h
        exact ⟨i, List.mem_cons_of_mem _ hi, hl, ha⟩

theorem findInInstances_none (conv : Nat → Option Int) (instanceID : String) :
    ∀ (insts : List ResourceInstance),
      findInInstances conv instanceID insts = none ↔
      ∀ inst ∈ insts, inst.Attributes.lookup "id" ≠ some (.str instanceID)
  | [] => by simp [findInInstances]
  | inst :: rest => by
    have ih := findInInstances_none conv instanceID rest
    unfold findInInstances
    cases hid : asString (mapIndex inst.Attributes "id") with
    | none =>
      have hno : inst.Attributes.lookup "id" ≠ some (.str instanceID) := by
        intro hl
        rw [(asString_mapIndex _ _ _).2 hl] at hid
        cases hid
      simp only [ih, List.mem_cons, forall_eq_or_imp]
      exact ⟨fun h => ⟨hno, h⟩, fun h => h.2⟩
    | some id =>
      have hl := (asString_mapIndex _ _ _).1 hid
      by_cases heq : id = instanceID
      · subst heq
        simp only [beq_self_eq_true, if_true, List.mem_cons, forall_eq_or_imp]
        constructor
        · intro h
          cases h
        · intro h
          exact absurd hl h.1
      · have hne : (id == instanceID) = false := by simpa using heq
        have hno : inst.Attributes.lookup "id" ≠ some (.str instanceID) := by
          rw [hl]
          intro h
          injection h with h
          injection h with h
          exact heq h
        simp only [hne, Bool.false_eq_true, if_false, ih, List.mem_cons, forall_eq_or_imp]
        exact ⟨fun h => ⟨hno, h⟩, fun h => h.2⟩

theorem findInResources_some (conv : Nat → Option Int) (instanceID : String) :
    ∀ (resources : List Resource) (attrs : Bag),
      findInResources conv instanceID resources = some attrs →
      attrs.lookup "id" = some (.str instanceID)
  | [], attrs, h => by simp [findInResources] at h
  | resource :: rest, attrs, h => by
    unfold findInResources at h
    cases ht : resource.Type_ == "aws_instance"
    · simp only [ht, Bool.false_eq_true, if_false] at h
      exact findInResources_some conv instanceID rest attrs h
    · simp only [ht, if_true] at h
      cases hf : findInInstances conv instanceID resource.Instances with
      | none =>
        simp only [hf] at h
        exact findInResources_some conv instanceID rest attrs h
      | some found =>
        simp only [hf, Option.some.injEq] at h
        subst h
        obtain ⟨inst, _, hl, ha⟩ := findInInstances_some conv instanceID _ _ hf
        rw [ha]
        exact (lookup_id_normalizeAttributes conv _ _).2 hl

theorem findInResources_none (conv : Nat → Option Int) (instanceID : String) :
    ∀ (resources : List Resource),
      findInResources conv instanceID resources = none ↔
      ¬ ∃ r ∈ resources, r.Type_ = "aws_instance" ∧
        ∃ inst ∈ r.Instances, inst.Attributes.lookup "id" = some (.str instanceID)
  | [] => by simp [findInResources]
  | resource :: rest => by
    have ih := findInResources_none conv instanceID rest
    unfold findInResources
    by_cases ht : resource.Type_ = "aws_instance"
    · have hb : (resource.Type_ == "aws_instance") = true := by simpa using ht
      simp only [hb, if_true]
      cases hf : findInInstances conv instanceID resource.Instances with
      | none =>
        have hnone := (findInInstances_none conv instanceID _).1 hf
        simp only [ih]
        constructor
        · rintro h ⟨r, hr, hrt, inst, hi, hl⟩
          rcases List.mem_cons.1 hr with heq | hmem
          · subst heq
            exact hnone inst hi hl
          · exact h ⟨r, hmem, hrt, inst, hi, hl⟩
        · rintro h ⟨r, hr, hrt, inst, hi, hl⟩
          exact h ⟨r, List.mem_cons_of_mem _ hr, hrt, inst, hi, hl⟩
      | some found =>
        obtain ⟨inst, hi, hl, _⟩ := findInInstances_some conv instanceID _ _ hf
        constructor
        · intro h
          cases h
        · intro h
          exact absurd ⟨resource, List.mem_cons_self _ _, ht, inst, hi, hl⟩ h
    · have hb : (resource.Type_ == "aws_instance") = false := by simpa using ht
      simp only [hb, Bool.false_eq_true, if_false, ih]
      constructor
      · rintro h ⟨r, hr, hrt, inst, hi, hl⟩
        rcases List.mem_cons.1 hr with heq | hmem
        · subst heq
          exact ht hrt
        · exact h ⟨r, hmem, hrt, inst, hi, hl⟩
      · rintro h ⟨r, hr, hrt, inst, hi, hl⟩
        exact h ⟨r, List.mem_cons_of_mem _ hr, hrt, inst, hi, hl⟩

theorem appendInstances_eq (conv : Nat → Option Int) :
    ∀ (insts : List ResourceInstance) (instances : List Bag),
      appendInstances conv insts instances =
        instances ++ insts.map (fun inst => normalizeAttributes conv inst.Attributes)
  | [], instances => by simp [appendInstances]
  | inst :: rest, instances => by
    simp [appendInstances, appendInstances_eq conv rest]

theorem mem_allInstancesLoop (conv : Nat → Option Int) (bag : Bag) :
    ∀ (resources : List Resource) (instances : List Bag),
      bag ∈ allInstancesLoop conv resources instances →
      bag ∈ instances ∨ ∃ r ∈ resources, r.Type_ = "aws_instance" ∧
        ∃ inst ∈ r.Instances, bag = normalizeAttributes conv inst.Attributes
  | [], instances, h => Or.inl (by simpa [allInstancesLoop] using h)
  | resource :: rest, instances, h => by
    unfold allInstancesLoop at h
    by_cases ht : resource.Type_ = "aws_instance"
    · have hb : (resource.Type_ == "aws_instance") = true := by simpa using ht
      simp only [hb, if_true, appendInstances_eq] at h
      rcases mem_allInstancesLoop conv bag rest _ h with h1 | ⟨r, hr, hrt, hx⟩
      · rcases List.mem_append.1 h1 with h2 | h2
        · exact Or.inl h2
        · obtain ⟨inst, hi, rfl⟩ := List.mem_map.1 h2
          exact Or.inr ⟨resource, List.mem_cons_self _ _, ht, inst, hi, rfl⟩
      · exact Or.inr ⟨r, List.mem_cons_of_mem _ hr, hrt, hx⟩
    · have hb : (resource.Type_ == "aws_instance") = false := by simpa using ht
      simp only [hb, Bool.false_eq_true, if_false] at h
      rcases mem_allInstancesLoop conv bag rest _ h with h1 | ⟨r, hr, hrt, hx⟩
      · exact Or.inl h1
      · exact Or.inr ⟨r, List.mem_cons_of_mem _ hr, hrt, hx⟩

theorem mem_instanceIDsLoop (id : String) : ∀ (instances : List Bag) (ids : List String),
    id ∈ instanceIDsLoop instances ids →
    id ∈ ids ∨ ∃ bag ∈ instances, bag.lookup "id" = some (.str id)
  | [], ids, h => Or.inl (by simpa [instanceIDsLoop] using h)
  | inst :: rest, ids, h => by
    unfold instanceIDsLoop at h
    cases hid : asString (mapIndex inst "id") with
    | none =>
      simp only [hid] at h
      rcases mem_instanceIDsLoop id rest ids h with h1 | ⟨bag, hb, hl⟩
      · exact Or.inl h1
      · exact Or.inr ⟨bag, List.mem_cons_of_mem _ hb, hl⟩
    | some found =>
      simp only [hid] at h
      rcases mem_instanceIDsLoop id rest _ h with h1 | ⟨bag, hb, hl⟩
      · rcases List.mem_append.1 h1 with h2 | h2
        · exact Or.inl h2
        · have hf : id = found := by simpa using h2
          subst hf
          exact Or.inr ⟨inst, List.mem_cons_self _ _, (asString_mapIndex _ _ _).1 hid⟩
      · exact Or.inr ⟨bag, List.mem_cons_of_mem _ hb, hl⟩

/-- C24: with a state loaded, `GetInstanceIDs` returns the nil error and
every identifier it returns is resolvable, `GetInstanceConfig` returning for
it the nil error and a bag whose `id` attribute is the identifier; and
`GetInstanceConfig` returns the not-found error iff no instance of a
resource of type `aws_instance` has the string identifier as its `id`. -/
theorem GetInstanceConfig_spec (int64OfFloat : Nat → Option Int) (p : StateParser)
    (file : Except String State) (state : State) (hp : p.state = some state) :
    (GetInstanceIDs int64OfFloat p file).2 = none ∧
    (∀ id ∈ (GetInstanceIDs int64OfFloat p file).1,
      ∃ bag, GetInstanceConfig int64OfFloat p file id = (some bag, none) ∧
        bag.lookup "id" = some (.str id)) ∧
    (∀ id, GetInstanceConfig int64OfFloat p file id =
        (none, some ("instance " ++ id ++ " not found in Terraform state")) ↔
      ¬ ∃ r ∈ state.Resources, r.Type_ = "aws_instance" ∧
        ∃ inst ∈ r.Instances, inst.Attributes.lookup "id" = some (.str id)) := by
  have hload : loadState p file = .ok state := by simp [loadState, hp]
  have hconfig : ∀ id, GetInstanceConfig int64OfFloat p file id =
      match findInResources int64OfFloat id state.Resources with
      | some attrs => (some attrs, none)
      | none => (none, some ("instance " ++ id ++ " not found in Terraform state")) := by
    intro id
    simp [GetInstanceConfig, hload]
  have hids : GetInstanceIDs int64OfFloat p file =
      (instanceIDsLoop (allInstancesLoop int64OfFloat state.Resources []) [], none) := by
    simp [GetInstanceIDs, GetAllInstances, hload]
  refine ⟨by rw [hids], ?_, ?_⟩
  · intro id hid
    rw [hids] at hid
    rcases mem_instanceIDsLoop id _ _ hid with h | ⟨bag, hbag, hl⟩
    · cases h
    · rcases mem_allInstancesLoop int64OfFloat bag _ _ hbag with h | ⟨r, hr, hrt, inst, hi, rfl⟩
      · cases h
      · have hraw := (lookup_id_normalizeAttributes int64OfFloat _ _).1 hl
        cases hf : findInResources int64OfFloat id state.Resources with
        | none =>
          exact absurd ⟨r, hr, hrt, inst, hi, hraw⟩
            ((findInResources_none int64OfFloat id _).1 hf)
        | some attrs =>
          exact ⟨attrs, by rw [hconfig, hf], findInResources_some int64OfFloat id _ _ hf⟩
  · intro id
    rw [hconfig, ← findInResources_none int64OfFloat id state.Resources]
    cases findInResources int64OfFloat id state.Resources <;> simp

/-- C24 at a parser that has loaded a state with one resolvable instance,
an instance without an `id`, and a security group: the one identifier is
returned and resolves to its normalised attributes; the identifier of the
security group is not found. -/
theorem GetInstanceConfig_spec_witness :
    GetInstanceIDs int64OfFloat64 testParser (.error "unused") = (["i-1"], none) ∧
    GetInstanceConfig int64OfFloat64 testParser (.error "unused") "i-1" =
      (some [("id", .str "i-1"), ("cpu_core_count", .int64 5),
             ("vpc_security_group_ids", .strSlice ["sg-1"])], none) ∧
    GetInstanceConfig int64OfFloat64 testParser (.error "unused") "sg-1" =
      (none, some "instance sg-1 not found in Terraform state") ∧
    (∀ id ∈ (GetInstanceIDs int64OfFloat64 testParser (.error "unused")).1,
      ∃ bag, GetInstanceConfig int64OfFloat64 testParser (.error "unused") id = (some bag, none) ∧
        bag.lookup "id" = some (.str id)) :=
  ⟨by decide, rfl, rfl,
    (GetInstanceConfig_spec int64OfFloat64 testParser (.error "unused") testState rfl).2.1⟩

end Detector
